import Mathlib

/-!
# Verification of the DoseEdge report ingestion and aggregation engine

A shallow embedding of `src/server.js` (Node/Express). Spreadsheet cell
values are modelled by `Cell` (string, finite number, or absent), a parsed
sheet row by `Row := List Cell` (the `sheet_to_json(sheet, {header:1})`
shape) or by `JRow := List (String × Cell)` (the header-keyed
`sheet_to_json(sheet)` shape). JavaScript numbers are modelled as exact
rationals `ℚ`; JS objects are modelled as insertion-ordered association
lists. The server clock is modelled in UTC (no DST), as an integer epoch
millisecond count. `generateId()` (a fresh random identifier) is modelled
by a monotone counter threaded through each ingest, and
`new Date().toISOString()` timestamps by an opaque string parameter.
-/

namespace DoseEdge

attribute [local semireducible] Rat.add Rat.sub Rat.mul Rat.inv Rat.ofScientific

/-! ## Structural character-list utilities

Core `String` functions (`splitOn`, `contains`, `toUpper`, `trim`, the
decidable `≤`, `toString` on numbers) recurse on byte positions and do not
reduce inside the kernel; the embedding therefore works on `String.data`
character lists with structurally recursive equivalents, so that every
definition evaluates on concrete inputs in proofs. -/

/-- Lexicographic (code-unit) order on character lists — the order that
`localeCompare` and the default `Array.prototype.sort` comparator induce on
the `YYYY-MM-DD` strings compared here. -/
def charListLe : List Char → List Char → Bool
  | [], _ => true
  | _ :: _, [] => false
  | a :: as, b :: bs =>
    if a.toNat < b.toNat then true
    else if b.toNat < a.toNat then false
    else charListLe as bs

def strLe (a b : String) : Bool := charListLe a.data b.data

/-- `s.split(sep)` on character lists. -/
def splitChar (sep : Char) : List Char → List (List Char)
  | [] => [[]]
  | c :: rest =>
    match splitChar sep rest with
    | [] => [[]]
    | h :: t => if c = sep then [] :: h :: t else (c :: h) :: t

/-- Whether `pat` occurs at the start of `cs`. -/
def leadsWith (cs pat : List Char) : Bool := decide (cs.take pat.length = pat)

/-- `String.prototype.includes` on character lists. -/
def hasSub (sub : List Char) : List Char → Bool
  | [] => sub.isEmpty
  | c :: rest => leadsWith (c :: rest) sub || hasSub sub rest

/-- Trim whitespace at both ends (`String.prototype.trim`). -/
def trimWs (cs : List Char) : List Char :=
  ((cs.dropWhile Char.isWhitespace).reverse.dropWhile Char.isWhitespace).reverse

/-- Lowercase a string characterwise. -/
def lowerStr (s : String) : String := String.mk (s.data.map Char.toLower)

/-- Decimal digits of a natural number, structurally via fuel. -/
def natDigitsAux : Nat → Nat → List Char → List Char
  | 0, _, acc => acc
  | fuel + 1, n, acc =>
    let d := Char.ofNat (48 + n % 10)
    if n < 10 then d :: acc
    else natDigitsAux fuel (n / 10) (d :: acc)

def natToStr (n : Nat) : String := String.mk (natDigitsAux (n + 1) n [])

def intToStr (i : Int) : String :=
  if i < 0 then "-" ++ natToStr i.natAbs else natToStr i.natAbs

/-- The insertion step of `jsSort`: a later element goes after every
earlier element that compares `le` to it. -/
def insertLe {α : Type} (le : α → α → Bool) (x : α) : List α → List α
  | [] => [x]
  | y :: ys => if le y x then y :: insertLe le x ys else x :: y :: ys

/-- A stable sort, structurally recursive and hence executable inside
proofs. Stability plus sortedness determine a sort's output, so this
agrees with the stable TimSort of `Array.prototype.sort`. -/
def jsSort {α : Type} (le : α → α → Bool) (l : List α) : List α :=
  l.foldl (fun acc x => insertLe le x acc) []

/-- A spreadsheet cell value as delivered by `sheet_to_json`: a string, a
finite number, or absent (JS `undefined`). -/
inductive Cell where
  | str (s : String)
  | num (q : ℚ)
  | empty
deriving Repr, DecidableEq

/-- A row of `sheet_to_json(sheet, { header: 1 })`: an array of cells. -/
abbrev Row := List Cell

/-- A row of `sheet_to_json(sheet)` (no `header:1`): an object keyed by the
column labels of the header row. -/
abbrev JRow := List (String × Cell)

/-- `row[i]`: out-of-range access yields JS `undefined`, i.e. `Cell.empty`. -/
def getCell (row : Row) (i : Nat) : Cell :=
  (List.get? row i).getD Cell.empty

/-- JS truthiness of a cell value: `undefined`, `""` and `0` are falsy. -/
def Cell.truthy : Cell → Bool
  | .str s => s ≠ ""
  | .num q => q ≠ 0
  | .empty => false

/-- JS `a || b` on cell values. -/
def jsOr (a b : Cell) : Cell := if a.truthy then a else b

/-- Property lookup on a header-keyed row (`row.Name`); absent → `undefined`. -/
def jget (r : JRow) (k : String) : Cell :=
  match r with
  | [] => Cell.empty
  | (k', v) :: rest => if k' = k then v else jget rest k

/-! ## Association-list model of JS objects

JS object property writes keep the original insertion position of an
existing key and append new keys at the end; `Object.entries` iterates in
that order. (For integer-like keys JS iterates numerically ascending; no
claim below depends on iteration order of such maps, and every read either
sums or re-sorts.) -/

/-- JS `m[k] = v`: replace in place if the key exists, else append. -/
def aset {κ α : Type} [DecidableEq κ] (m : List (κ × α)) (k : κ) (v : α) :
    List (κ × α) :=
  match m with
  | [] => [(k, v)]
  | (k', v') :: rest => if k' = k then (k, v) :: rest else (k', v') :: aset rest k v

/-- JS `m[k]` as an option. -/
def aget {κ α : Type} [DecidableEq κ] (m : List (κ × α)) (k : κ) : Option α :=
  match m with
  | [] => none
  | (k', v) :: rest => if k' = k then some v else aget rest k

/-- The JS idiom `if (!m[k]) m[k] = init; <mutate m[k] by f>`. -/
def aupd {κ α : Type} [DecidableEq κ] (m : List (κ × α)) (k : κ) (init : α)
    (f : α → α) : List (κ × α) :=
  match m with
  | [] => [(k, f init)]
  | (k', v) :: rest => if k' = k then (k', f v) :: rest else (k', v) :: aupd rest k init f

/-- The values of a JS object, in iteration order. -/
def avals {κ α : Type} (m : List (κ × α)) : List α := m.map (·.2)

/-! ## JS numeric parsing

`parseInt` / `parseFloat` on the cell values that actually occur in the
sheets: numbers, digit strings, and absent cells. Exotic cases (exponent
stringification of huge numbers, radix prefixes) do not occur in any
spreadsheet handled here and are not modelled. -/

/-- Numeric value of a maximal run of decimal digits. -/
def digitsVal (ds : List Char) : Nat :=
  ds.foldl (fun a c => a * 10 + (c.toNat - 48)) 0

/-- JS `parseInt` on a string: optional leading whitespace and sign, then a
maximal run of digits; `NaN` (here `none`) if no digits. -/
def parseIntStr (s : String) : Option Int :=
  let cs := s.data.dropWhile Char.isWhitespace
  let sgn : Int := match cs with
    | '-' :: _ => -1
    | _ => 1
  let cs' := match cs with
    | '-' :: rest => rest
    | '+' :: rest => rest
    | _ => cs
  let ds := cs'.takeWhile Char.isDigit
  if ds.isEmpty then none else some (sgn * (digitsVal ds : Int))

/-- Truncation toward zero, the effect of JS `parseInt` on a finite number. -/
def ratTrunc (q : ℚ) : Int := if 0 ≤ q then ⌊q⌋ else -⌊-q⌋

/-- JS `parseInt(cell)`: `none` models `NaN`. -/
def jsParseInt (c : Cell) : Option Int :=
  match c with
  | .num q => some (ratTrunc q)
  | .str s => parseIntStr s
  | .empty => none

/-- The ubiquitous `parseInt(x) || 0` coercion. -/
def jsParseIntD0 (c : Cell) : Int := (jsParseInt c).getD 0

/-- Parse a run of digits as a fraction `0.d₁d₂…`. -/
def fracVal (ds : List Char) : ℚ :=
  ds.foldr (fun c a => ((c.toNat - 48 : ℕ) + a) / 10) 0

/-- JS `parseFloat` on a string: optional leading whitespace and sign, then
a maximal decimal literal `digits[.digits]` or `.digits`. -/
def parseFloatStr (s : String) : Option ℚ :=
  let cs := s.data.dropWhile Char.isWhitespace
  let sgn : ℚ := match cs with
    | '-' :: _ => -1
    | _ => 1
  let cs' := match cs with
    | '-' :: rest => rest
    | '+' :: rest => rest
    | _ => cs
  let ds := cs'.takeWhile Char.isDigit
  let rest := cs'.dropWhile Char.isDigit
  let fs := match rest with
    | '.' :: tl => tl.takeWhile Char.isDigit
    | _ => []
  if ds.isEmpty ∧ fs.isEmpty then none
  else some (sgn * ((digitsVal ds : ℚ) + fracVal fs))

/-- JS `parseFloat(cell)`: `none` models `NaN`. -/
def jsParseFloat (c : Cell) : Option ℚ :=
  match c with
  | .num q => some q
  | .str s => parseFloatStr s
  | .empty => none

/-- The `parseFloat(x) || 0` coercion. -/
def jsParseFloatD0 (c : Cell) : ℚ := (jsParseFloat c).getD 0

/-- JS `ToNumber` as triggered by arithmetic on a cell value (used by
`excelDateToISO`'s `serial - 25569`): a number is itself, `undefined` is
`NaN`, a string must be a complete numeric literal (an empty or blank
string is `0`). -/
def cellToNumber (c : Cell) : Option ℚ :=
  match c with
  | .num q => some q
  | .empty => none
  | .str s =>
    let cs := s.data.dropWhile Char.isWhitespace
    if cs.isEmpty then some 0 else
    let sgn : ℚ := match cs with
      | '-' :: _ => -1
      | _ => 1
    let cs' := match cs with
      | '-' :: rest => rest
      | '+' :: rest => rest
      | _ => cs
    let ds := cs'.takeWhile Char.isDigit
    let rest := cs'.dropWhile Char.isDigit
    let fs := match rest with
      | '.' :: tl => tl.takeWhile Char.isDigit
      | _ => []
    let rest' := match rest with
      | '.' :: tl => tl.dropWhile Char.isDigit
      | _ => rest
    if ds.isEmpty ∧ fs.isEmpty then none
    else if rest'.dropWhile Char.isWhitespace ≠ [] then none
    else some (sgn * ((digitsVal ds : ℚ) + fracVal fs))

/-! ## Calendar arithmetic

`new Date(ms).toISOString().split('T')[0]` and `new Date("YYYY-MM-DD")`
reduce to conversions between an epoch day count (days since 1970-01-01
UTC) and a proleptic Gregorian civil date, via the standard era-based
algorithm. `Int` division `/` is Euclidean, which coincides with floor
division for the positive divisors used here. -/

/-- Civil date `(year, month, day)` of an epoch day count. -/
def civilOfDays (z : Int) : Int × Int × Int :=
  let z' := z + 719468
  let era := z' / 146097
  let doe := z' - era * 146097
  let yoe := (doe - doe / 1460 + doe / 36524 - doe / 146096) / 365
  let y := yoe + era * 400
  let doy := doe - (365 * yoe + yoe / 4 - yoe / 100)
  let mp := (5 * doy + 2) / 153
  let d := doy - (153 * mp + 2) / 5 + 1
  let m := mp + (if mp < 10 then 3 else -9)
  (y + (if m ≤ 2 then 1 else 0), m, d)

/-- Epoch day count of a civil date. -/
def daysOfCivil (y m d : Int) : Int :=
  let y' := y - (if m ≤ 2 then 1 else 0)
  let era := y' / 400
  let yoe := y' - era * 400
  let doy := (153 * (m + (if m > 2 then -3 else 9)) + 2) / 5 + d - 1
  let doe := yoe * 365 + yoe / 4 - yoe / 100 + doy
  era * 146097 + doe - 719468

/-- Zero-pad the decimal representation of a natural number to `w` digits. -/
def padNum (w : Nat) (n : Int) : String :=
  let s := natToStr n.natAbs
  let pad := String.mk (List.replicate (w - s.length) '0')
  pad ++ s

/-- The `YYYY-MM-DD` string of an epoch day count: the date component of
`new Date(days * 86400000).toISOString()` (years 0–9999, as produced by
every date occurring in these reports). -/
def isoOfDays (z : Int) : String :=
  let c := civilOfDays z
  padNum 4 c.1 ++ "-" ++ padNum 2 c.2.1 ++ "-" ++ padNum 2 c.2.2

/-- `excelDateToISO` (`src/server.js` lines 51–55): the day count is
`Math.floor(serial - 25569)` and the result is the UTC date string of that
day. -/
def excelDateToISO (serial : ℚ) : String :=
  let utc_days := ⌊serial - 25569⌋
  isoOfDays utc_days

/-! ## Production and bypass ingest

`POST /api/upload/production` (lines 343–410) and `POST /api/upload/bypass`
(lines 535–599) share the header-row + labeled-hour-column schema. An hour
key is `some h` for a label parsing to the integer `h` before the colon,
and `none` for a label whose part before the colon does not parse
(`parseInt` yields `NaN`, which JS silently uses as the object key `"NaN"`).
The upload response is `UploadResp`; `ProdState` holds the in-memory
collection and the persisted (JSON file) collection. -/

/-- An hour-bucket key: `some h` for hour `h`, `none` for the `NaN` key. -/
abbrev HKey := Option Int

/-- Lines 358–365 / 550–557: every header cell after column 0 that is a
string containing a colon maps its column index to the integer before the
colon. -/
def buildHourMap (header : Row) : List (Nat × HKey) :=
  (List.range header.length).foldl (fun acc i =>
    if i = 0 then acc else
    match getCell header i with
    | .str s =>
      if s.data.contains ':' then
        acc ++ [(i, parseIntStr (String.mk (s.data.takeWhile (fun c => c ≠ ':'))))]
      else acc
    | _ => acc) []

/-- Lines 375–382 / 565–572: fold the mapped hour columns of one data row,
assigning `hourly[hour] = count` and accumulating the total. -/
def hourTotals (hm : List (Nat × HKey)) (row : Row) :
    List (HKey × Int) × Int :=
  hm.foldl (fun acc p =>
    let c := jsParseIntD0 (getCell row p.1)
    (aset acc.1 p.2 c, acc.2 + c)) ([], 0)

/-- A stored production record (data model §3.A). -/
structure ProdRecord where
  id : Nat
  date : String
  total_doses : Int
  hourly : List (HKey × Int)
  uploaded_at : String
deriving Repr, DecidableEq

instance : Inhabited ProdRecord := ⟨⟨0, "", 0, [], ""⟩⟩

/-- Lines 384–395: `findIndex(d => d.date === date)` followed by in-place
replacement, keeping the matched record's `id`; `none` when no record has
the date. -/
def prodReplace (date : String) (total : Int) (hourly : List (HKey × Int))
    (now : String) : List ProdRecord → Option (List ProdRecord)
  | [] => none
  | r :: rs =>
    if r.date = date then
      some ({ id := r.id, date := date, total_doses := total, hourly := hourly,
              uploaded_at := now } :: rs)
    else (prodReplace date total hourly now rs).map (r :: ·)

/-- The loop-carried ingest state: the collection being mutated, the id
counter, and the `results` counters. -/
structure ProdAcc where
  col : List ProdRecord
  nextId : Nat
  added : Nat
  updated : Nat
deriving Repr, DecidableEq

/-- Lines 384–399: replace the existing record for the date (counting
`updated`) or append a fresh-id record (counting `added`). -/
def prodUpsert (acc : ProdAcc) (date : String) (total : Int)
    (hourly : List (HKey × Int)) (now : String) : ProdAcc :=
  match prodReplace date total hourly now acc.col with
  | some col' => { acc with col := col', updated := acc.updated + 1 }
  | none =>
    { acc with
      col := acc.col ++ [{ id := acc.nextId, date := date, total_doses := total,
                           hourly := hourly, uploaded_at := now }],
      nextId := acc.nextId + 1,
      added := acc.added + 1 }

/-- Lines 368–400: the data-row loop. A row with a falsy first cell is
skipped; a truthy first cell that is not numeric makes
`new Date(NaN).toISOString()` throw (`"Invalid time value"`), aborting the
loop with the state mutated so far. -/
def prodLoop (hm : List (Nat × HKey)) (now : String) :
    List Row → ProdAcc → ProdAcc × Option String
  | [], acc => (acc, none)
  | row :: rest, acc =>
    if (getCell row 0).truthy then
      match cellToNumber (getCell row 0) with
      | none => (acc, some "Invalid time value")
      | some serial =>
        let date := excelDateToISO serial
        let ht := hourTotals hm row
        prodLoop hm now rest (prodUpsert acc date ht.2 ht.1 now)
    else prodLoop hm now rest acc

/-- The two collections an ingest can mutate: the process-memory array and
the JSON file rewritten by `saveData`. -/
structure ProdState where
  mem : List ProdRecord
  disk : List ProdRecord
deriving Repr, DecidableEq

/-- The upload response body: `{success:true, results:{added, updated}}` or
`{error: message}`. -/
inductive UploadResp where
  | ok (added updated : Nat)
  | err (msg : String)
deriving Repr, DecidableEq

structure ProdOut where
  state : ProdState
  nextId : Nat
  resp : UploadResp
deriving Repr, DecidableEq

/-- Line 402: `sort((a, b) => b.date.localeCompare(a.date))`, descending by
date string (for `YYYY-MM-DD` strings `localeCompare` agrees with code-unit
order); the stable runtime sort is modelled by `jsSort`. -/
def prodSortLe (a b : ProdRecord) : Bool := strLe b.date a.date

/-- `POST /api/upload/production` (lines 343–410). A missing or wrong
`EntryDate` sentinel rejects the file before any mutation; a throw inside
the row loop leaves the partially mutated in-memory array but never reaches
`saveData`; on success the sorted collection is both kept in memory and
persisted. -/
def prodIngest (raw : List Row) (st : ProdState) (nextId : Nat) (now : String) :
    ProdOut :=
  match raw with
  | [] =>
    { state := st, nextId := nextId,
      resp := .err "Invalid file format - expected EntryDate in first column" }
  | header :: rows =>
    if getCell header 0 ≠ Cell.str "EntryDate" then
      { state := st, nextId := nextId,
        resp := .err "Invalid file format - expected EntryDate in first column" }
    else
      let hm := buildHourMap header
      let r := prodLoop hm now rows ⟨st.mem, nextId, 0, 0⟩
      match r.2 with
      | some e =>
        { state := { mem := r.1.col, disk := st.disk }, nextId := r.1.nextId,
          resp := .err e }
      | none =>
        let sorted := jsSort prodSortLe r.1.col
        { state := { mem := sorted, disk := sorted }, nextId := r.1.nextId,
          resp := .ok r.1.added r.1.updated }

/-- A stored bypass record; the natural key is `location` (row cell value,
compared with JS strict equality). -/
structure BypassRecord where
  id : Nat
  location : Cell
  total_bypasses : Int
  hourly : List (HKey × Int)
  uploaded_at : String
deriving Repr, DecidableEq

/-- Lines 574–585: in-place replacement of the first record with the same
`location`, keeping its `id`. -/
def bypassReplace (location : Cell) (total : Int) (hourly : List (HKey × Int))
    (now : String) : List BypassRecord → Option (List BypassRecord)
  | [] => none
  | r :: rs =>
    if r.location = location then
      some ({ id := r.id, location := location, total_bypasses := total,
              hourly := hourly, uploaded_at := now } :: rs)
    else (bypassReplace location total hourly now rs).map (r :: ·)

structure BypassAcc where
  col : List BypassRecord
  nextId : Nat
  added : Nat
  updated : Nat
deriving Repr, DecidableEq

/-- Lines 574–589: the bypass upsert. -/
def bypassUpsert (acc : BypassAcc) (location : Cell) (total : Int)
    (hourly : List (HKey × Int)) (now : String) : BypassAcc :=
  match bypassReplace location total hourly now acc.col with
  | some col' => { acc with col := col', updated := acc.updated + 1 }
  | none =>
    { acc with
      col := acc.col ++ [{ id := acc.nextId, location := location,
                           total_bypasses := total, hourly := hourly,
                           uploaded_at := now }],
      nextId := acc.nextId + 1,
      added := acc.added + 1 }

/-- Lines 560–590: the bypass data-row loop (no date conversion, so no
throw is possible inside it). -/
def bypassLoop (hm : List (Nat × HKey)) (now : String) :
    List Row → BypassAcc → BypassAcc
  | [], acc => acc
  | row :: rest, acc =>
    if (getCell row 0).truthy then
      let location := getCell row 0
      let ht := hourTotals hm row
      bypassLoop hm now rest (bypassUpsert acc location ht.2 ht.1 now)
    else bypassLoop hm now rest acc

structure BypassState where
  mem : List BypassRecord
  disk : List BypassRecord
deriving Repr, DecidableEq

structure BypassOut where
  state : BypassState
  nextId : Nat
  resp : UploadResp
deriving Repr, DecidableEq

/-- `POST /api/upload/bypass` (lines 535–599). Same shape as production but
keyed by location and with no final sort. -/
def bypassIngest (raw : List Row) (st : BypassState) (nextId : Nat)
    (now : String) : BypassOut :=
  match raw with
  | [] =>
    { state := st, nextId := nextId,
      resp := .err "Invalid file format - expected Location in first column" }
  | header :: rows =>
    if getCell header 0 ≠ Cell.str "Location" then
      { state := st, nextId := nextId,
        resp := .err "Invalid file format - expected Location in first column" }
    else
      let hm := buildHourMap header
      let acc := bypassLoop hm now rows ⟨st.mem, nextId, 0, 0⟩
      { state := { mem := acc.col, disk := acc.col }, nextId := acc.nextId,
        resp := .ok acc.added acc.updated }

/-! ## The rolling-window filter

Every read endpoint runs
`cutoff = new Date(); cutoff.setDate(cutoff.getDate() - parseInt(days));`
`collection.filter(d => new Date(d.date) >= cutoff)`.
With the server clock modelled in UTC the cutoff instant is exactly `days`
civil days (`days * 86400000` ms) before the request instant, and it keeps
the request's time of day. `new Date("YYYY-MM-DD")` is UTC midnight of
that date; any other string gives an invalid date whose comparison is
always false. -/

def isLeap (y : Int) : Bool := (y % 4 = 0 ∧ y % 100 ≠ 0) ∨ y % 400 = 0

def daysInMonth (y m : Int) : Int :=
  if m = 2 then (if isLeap y then 29 else 28)
  else if m = 4 ∨ m = 6 ∨ m = 9 ∨ m = 11 then 30
  else 31

/-- `new Date(s)` for a stored date string: `some` epoch day count when `s`
is a valid `YYYY-MM-DD` calendar date, else `none` (an invalid date). -/
def parseISODate (s : String) : Option Int :=
  match splitChar '-' s.data with
  | [ys, ms, ds] =>
    if ys.length = 4 ∧ ms.length = 2 ∧ ds.length = 2 ∧
       ys.all Char.isDigit ∧ ms.all Char.isDigit ∧
       ds.all Char.isDigit then
      let y : Int := digitsVal ys
      let m : Int := digitsVal ms
      let d : Int := digitsVal ds
      if 1 ≤ m ∧ m ≤ 12 ∧ 1 ≤ d ∧ d ≤ daysInMonth y m then
        some (daysOfCivil y m d)
      else none
    else none
  | _ => none

def msPerDay : Int := 86400000

/-- The cutoff instant: `days` civil days before the request instant,
retaining its time of day. -/
def cutoffMs (nowMs : Int) (days : Nat) : Int := nowMs - days * msPerDay

/-- The shared filter predicate `new Date(d.date) >= cutoff`. -/
def inWindow (nowMs : Int) (days : Nat) (dateStr : String) : Bool :=
  match parseISODate dateStr with
  | some z => decide (z * msPerDay ≥ cutoffMs nowMs days)
  | none => false

/-- `GET /api/production/daily` with the default `grouping = 'daily'`
(lines 99–104, 136): the windowed records are returned as filtered. -/
def productionDaily (days : Nat) (nowMs : Int) (col : List ProdRecord) :
    List ProdRecord :=
  col.filter (fun d => inWindow nowMs days d.date)

/-! ## Turnaround ingest and the by-priority rollup

`POST /api/upload/turnaround` (lines 413–532) and
`GET /api/turnaround/by-priority` (lines 186–217). The per-row key is the
constant `new Date().toISOString().split('T')[0]` (the upload day,
parameter `todayStr`); nested dimension maps are keyed by the parsed
priority integer, the workstation cell, and the first word of the dose
description. -/

structure TStats where
  count : Nat
  total_time : ℚ
deriving Repr, DecidableEq

structure TBucket where
  count : Nat
  total_time : ℚ
  by_priority : List (Int × TStats)
  by_workstation : List (Cell × TStats)
  by_drug : List (String × TStats)
deriving Repr, DecidableEq

def emptyTBucket : TBucket := ⟨0, 0, [], [], []⟩

/-- `{count: c+1, total_time: t+Δ}` — one contributing row. -/
def bumpStats (t : ℚ) (s : TStats) : TStats := ⟨s.count + 1, s.total_time + t⟩

/-- `headerRow.indexOf(label)` (strict equality); `none` models `-1`. -/
def hIdx (header : Row) (label : String) : Option Nat :=
  header.findIdx? (fun c => decide (c = Cell.str label))

/-- Column access through an optional index: `row[-1]` is `undefined`. -/
def getCol (row : Row) (i : Option Nat) : Cell :=
  match i with
  | none => Cell.empty
  | some i => getCell row i

/-- The resolved columns of the turnaround header row (lines 423–436). -/
structure TCols where
  doseId : Option Nat
  priority : Option Nat
  patientLocation : Option Nat
  facility : Option Nat
  hazmat : Option Nat
  doseDesc : Option Nat
  status : Option Nat
  totalTimeline : Option Nat
  totalPrep : Option Nat
  workstation : Option Nat
  queueToPrint : Option Nat
  queueToSort : Option Nat
deriving Repr, DecidableEq

def turnCols (header : Row) : TCols :=
  { doseId := hIdx header "DoseID",
    priority := hIdx header "Priority",
    patientLocation := hIdx header "PatientLocation",
    facility := hIdx header "Facility",
    hazmat := hIdx header "HazMat",
    doseDesc := hIdx header "DoseDescription",
    status := hIdx header "DoseStatus",
    totalTimeline := hIdx header "Total Dose Timeline - Start to Sort (m)",
    totalPrep := hIdx header "Total Prep Time (m)",
    workstation := hIdx header "WorkStation",
    queueToPrint := hIdx header "Queued to Printed Time (m)",
    queueToSort := hIdx header "Queued to Sorted Time (m)" }

/-- Calling a string method on a truthy non-string cell throws. -/
def cellString : Cell → Except String String
  | .str s => .ok s
  | _ => .error "TypeError: not a function"

structure TurnAcc where
  byDate : List (String × TBucket)
  total_doses : Nat
deriving Repr, DecidableEq

/-- One iteration of the row loop (lines 442–499): skip rows with a falsy
`DoseID`, extract the drug name from the dose description, skip rows whose
status is not `'Sorted'`, and accumulate into the single `todayStr`
bucket. -/
def turnRowStep (ci : TCols) (todayStr : String) (acc : TurnAcc) (row : Row) :
    Except String TurnAcc :=
  if ¬(getCol row ci.doseId).truthy then .ok acc
  else
    match cellString (jsOr (getCol row ci.doseDesc) (Cell.str "")) with
    | .error e => .error e
    | .ok doseDesc =>
      let drugName := String.mk (doseDesc.data.takeWhile (fun c => c ≠ ' '))
      let totalTimeline := jsParseFloatD0 (getCol row ci.totalTimeline)
      let priority := jsParseIntD0 (getCol row ci.priority)
      let workstation := jsOr (getCol row ci.workstation) (Cell.str "Unknown")
      let status := jsOr (getCol row ci.status) (Cell.str "")
      if status ≠ Cell.str "Sorted" then .ok acc
      else
        let upd : TBucket → TBucket := fun b =>
          { count := b.count + 1,
            total_time := b.total_time + totalTimeline,
            by_priority := aupd b.by_priority priority ⟨0, 0⟩ (bumpStats totalTimeline),
            by_workstation :=
              aupd b.by_workstation workstation ⟨0, 0⟩ (bumpStats totalTimeline),
            by_drug :=
              if drugName ≠ "" then
                aupd b.by_drug drugName ⟨0, 0⟩ (bumpStats totalTimeline)
              else b.by_drug }
        .ok { byDate := aupd acc.byDate todayStr emptyTBucket upd,
              total_doses := acc.total_doses + 1 }

def turnLoop (ci : TCols) (todayStr : String) :
    List Row → TurnAcc → Except String TurnAcc
  | [], acc => .ok acc
  | row :: rest, acc =>
    match turnRowStep ci todayStr acc row with
    | .error e => .error e
    | .ok acc' => turnLoop ci todayStr rest acc'

/-- `parseFloat(x.toFixed(1))`: one decimal, ties toward the larger value. -/
def round1 (q : ℚ) : ℚ := (⌊q * 10 + 1 / 2⌋ : ℚ) / 10

/-- A stored turnaround record (data model §3.A). -/
structure TurnRecord where
  id : Nat
  date : String
  total_doses : Nat
  avg_turnaround : ℚ
  by_priority : List (Int × TStats)
  by_workstation : List (Cell × TStats)
  by_drug : List (String × TStats)
  uploaded_at : String
deriving Repr, DecidableEq

/-- Lines 504–513: the record body built from an aggregate bucket. -/
def mkTurnRecord (id : Nat) (date : String) (b : TBucket) (now : String) :
    TurnRecord :=
  { id := id, date := date, total_doses := b.count,
    avg_turnaround := if 0 < b.count then round1 (b.total_time / b.count) else 0,
    by_priority := b.by_priority,
    by_workstation := b.by_workstation,
    by_drug := b.by_drug,
    uploaded_at := now }

def turnReplace (date : String) (b : TBucket) (now : String) :
    List TurnRecord → Option (List TurnRecord)
  | [] => none
  | r :: rs =>
    if r.date = date then some (mkTurnRecord r.id date b now :: rs)
    else (turnReplace date b now rs).map (r :: ·)

structure TurnUpAcc where
  col : List TurnRecord
  nextId : Nat
  added : Nat
  updated : Nat
deriving Repr, DecidableEq

/-- Lines 502–522: upsert one aggregated bucket. -/
def turnUpsert (acc : TurnUpAcc) (date : String) (b : TBucket) (now : String) :
    TurnUpAcc :=
  match turnReplace date b now acc.col with
  | some col' => { acc with col := col', updated := acc.updated + 1 }
  | none =>
    { acc with
      col := acc.col ++ [mkTurnRecord acc.nextId date b now],
      nextId := acc.nextId + 1,
      added := acc.added + 1 }

def turnSave (byDate : List (String × TBucket)) (acc : TurnUpAcc)
    (now : String) : TurnUpAcc :=
  byDate.foldl (fun a p => turnUpsert a p.1 p.2 now) acc

structure TurnState where
  mem : List TurnRecord
  disk : List TurnRecord
deriving Repr, DecidableEq

/-- `{added, updated, total_doses}` of a successful turnaround upload. -/
inductive TurnResp where
  | ok (added updated total_doses : Nat)
  | err (msg : String)
deriving Repr, DecidableEq

structure TurnOut where
  state : TurnState
  nextId : Nat
  resp : TurnResp
deriving Repr, DecidableEq

def turnSortLe (a b : TurnRecord) : Bool := strLe b.date a.date

/-- `POST /api/upload/turnaround` (lines 413–532). `todayStr` is the
upload-day date string used as the single aggregation key; a throw in the
row loop happens before any collection mutation, and on an empty sheet
`rawData[0].indexOf` throws. -/
def turnIngest (raw : List Row) (st : TurnState) (nextId : Nat)
    (todayStr now : String) : TurnOut :=
  match raw with
  | [] =>
    { state := st, nextId := nextId,
      resp := .err "Cannot read properties of undefined" }
  | header :: rows =>
    let ci := turnCols header
    match turnLoop ci todayStr rows ⟨[], 0⟩ with
    | .error e => { state := st, nextId := nextId, resp := .err e }
    | .ok tacc =>
      let up := turnSave tacc.byDate ⟨st.mem, nextId, 0, 0⟩ now
      let sorted := jsSort turnSortLe up.col
      { state := { mem := sorted, disk := sorted }, nextId := up.nextId,
        resp := .ok up.added up.updated tacc.total_doses }

/-- Lines 1387–1398. -/
def getPriorityLabel (p : Int) : String :=
  if p = 10 then "STAT"
  else if p = 20 then "ASAP"
  else if p = 30 then "Urgent"
  else if p = 40 then "Routine"
  else if p = 45 then "Standard"
  else if p = 50 then "Low"
  else if p = 55 then "Batch"
  else "Priority " ++ intToStr p

structure PriorityEntry where
  priority : Int
  priority_label : String
  count : Nat
  avg_turnaround : ℚ
deriving Repr, DecidableEq

/-- Merge one record's stats for one priority into the combined map
(lines 197–203). -/
def addStats (m : List (Int × TStats)) (p : Int) (s : TStats) :
    List (Int × TStats) :=
  aupd m p ⟨0, 0⟩ (fun t => ⟨t.count + s.count, t.total_time + s.total_time⟩)

/-- Fold every filtered record's `by_priority` map into one combined map
(lines 194–205). Stored `by_priority` keys are the parsed priority
integers, so the later `parseInt(priority)` on the key is the identity. -/
def priorityRollup (recs : List TurnRecord) : List (Int × TStats) :=
  recs.foldl (fun m d => d.by_priority.foldl (fun m' p => addStats m' p.1 p.2) m) []

/-- `GET /api/turnaround/by-priority` (lines 186–217): window filter,
combined rollup, derived average, ascending numeric priority sort. -/
def byPriorityQuery (days : Nat) (nowMs : Int) (col : List TurnRecord) :
    List PriorityEntry :=
  let filtered := col.filter (fun d => inWindow nowMs days d.date)
  let byPr := priorityRollup filtered
  (byPr.map (fun p =>
    { priority := p.1,
      priority_label := getPriorityLabel p.1,
      count := p.2.count,
      avg_turnaround :=
        if 0 < p.2.count then round1 (p.2.total_time / p.2.count) else 0
      : PriorityEntry })
  ) |> jsSort (fun a b => decide (a.priority ≤ b.priority))

/-! ## Usage/wastage ingest

`POST /api/upload/usage` (lines 602–724): header-indexed rows, grouped by
preparation date, with nested `by_product` (keyed by the product-name cell)
and `by_location` (keyed by the patient location truncated at its first
dash) dimension maps. -/

/-- `location.split('-')[0]`. -/
def locKey (s : String) : String := String.mk (s.data.takeWhile (fun c => c ≠ '-'))

/-- The resolved columns of the usage header row (lines 611–622). -/
structure UCols where
  patientLocation : Option Nat
  prepTime : Option Nat
  doseDesc : Option Nat
  doseId : Option Nat
  productName : Option Nat
  productNDC : Option Nat
  totalVolume : Option Nat
  unusedVolume : Option Nat
  multiDose : Option Nat
deriving Repr, DecidableEq

def usageCols (header : Row) : UCols :=
  { patientLocation := hIdx header "Patient Location",
    prepTime := hIdx header "Dose Preparation Time",
    doseDesc := hIdx header "Dose Description",
    doseId := hIdx header "Dose ID",
    productName := hIdx header "Product Name",
    productNDC := hIdx header "Product NDC",
    totalVolume := hIdx header "Product Total Volume",
    unusedVolume := hIdx header "Product Unused Volume",
    multiDose := hIdx header "Multi-Dose Product" }

/-- A `by_product` bucket `{used, waste, count, ndc}` (ndc fixed at
creation). -/
structure PStats where
  used : ℚ
  waste : ℚ
  count : Nat
  ndc : Cell
deriving Repr, DecidableEq

/-- A `by_location` bucket `{used, waste, count}`. -/
structure LStats where
  used : ℚ
  waste : ℚ
  count : Nat
deriving Repr, DecidableEq

/-- A per-date aggregate bucket (lines 650–658). -/
structure UBucket where
  total_volume : ℚ
  used_volume : ℚ
  waste_volume : ℚ
  product_count : Nat
  by_product : List (Cell × PStats)
  by_location : List (String × LStats)
deriving Repr, DecidableEq

def emptyUBucket : UBucket := ⟨0, 0, 0, 0, [], []⟩

/-- What one usage row contributes (lines 628–688): `skip` for a falsy
product name, `nodate` for a counted row without a preparation time,
`throw` for a non-numeric preparation time or a numeric patient location
(whose `.split` throws), and otherwise a contribution. -/
inductive URowInfo where
  | skip
  | nodate
  | throw (e : String)
  | contrib (date : String) (productName ndc : Cell) (totalVolume used waste : ℚ)
      (lk : String)
deriving Repr, DecidableEq

def usageRowInfo (ci : UCols) (row : Row) : URowInfo :=
  if ¬(getCol row ci.productName).truthy then .skip
  else
    let prepTimeSerial := getCol row ci.prepTime
    if ¬prepTimeSerial.truthy then .nodate
    else
      match cellToNumber prepTimeSerial with
      | none => .throw "Invalid time value"
      | some serial =>
        let date := excelDateToISO serial
        let productName := jsOr (getCol row ci.productName) (Cell.str "Unknown")
        let productNDC := jsOr (getCol row ci.productNDC) (Cell.str "")
        let totalVolume := jsParseFloatD0 (getCol row ci.totalVolume)
        let unusedVolume := jsParseFloatD0 (getCol row ci.unusedVolume)
        let location := jsOr (getCol row ci.patientLocation) (Cell.str "Unknown")
        match cellString location with
        | .error e => .throw e
        | .ok locStr =>
          .contrib date productName productNDC totalVolume
            (totalVolume - unusedVolume) unusedVolume (locKey locStr)

/-- Bump a `by_product` bucket by one contributing row. -/
def bumpPStats (used waste : ℚ) (p : PStats) : PStats :=
  { p with used := p.used + used, waste := p.waste + waste, count := p.count + 1 }

/-- Bump a `by_location` bucket by one contributing row. -/
def bumpLStats (used waste : ℚ) (l : LStats) : LStats :=
  ⟨l.used + used, l.waste + waste, l.count + 1⟩

structure UsageAcc where
  byDate : List (String × UBucket)
  byProduct : List (Cell × PStats)
  total_records : Nat
  total_waste_ml : ℚ
deriving Repr, DecidableEq

/-- One iteration of the usage row loop. (In the source a numeric location
throws only after the scalar per-date sums were bumped; that partial bump
is invisible because a throw discards the whole aggregation before any
store is touched, so the row is modelled as contributing atomically.) -/
def usageRowStep (ci : UCols) (acc : UsageAcc) (row : Row) :
    Except String UsageAcc :=
  match usageRowInfo ci row with
  | .skip => .ok acc
  | .nodate => .ok { acc with total_records := acc.total_records + 1 }
  | .throw e => .error e
  | .contrib date productName ndc totalVolume used waste lk =>
    let bump : UBucket → UBucket := fun b =>
      { total_volume := b.total_volume + totalVolume,
        used_volume := b.used_volume + used,
        waste_volume := b.waste_volume + waste,
        product_count := b.product_count + 1,
        by_product := aupd b.by_product productName ⟨0, 0, 0, ndc⟩
          (bumpPStats used waste),
        by_location := aupd b.by_location lk ⟨0, 0, 0⟩ (bumpLStats used waste) }
    .ok { byDate := aupd acc.byDate date emptyUBucket bump,
          byProduct := aupd acc.byProduct productName ⟨0, 0, 0, ndc⟩
            (bumpPStats used waste),
          total_records := acc.total_records + 1,
          total_waste_ml := acc.total_waste_ml + waste }

def usageLoop (ci : UCols) : List Row → UsageAcc → Except String UsageAcc
  | [], acc => .ok acc
  | row :: rest, acc =>
    match usageRowStep ci acc row with
    | .error e => .error e
    | .ok acc' => usageLoop ci rest acc'

/-- `parseFloat(x.toFixed(2))`. -/
def round2 (q : ℚ) : ℚ := (⌊q * 100 + 1 / 2⌋ : ℚ) / 100

/-- A stored usage record (data model §3.A). -/
structure UsageRecord where
  id : Nat
  date : String
  total_volume : ℚ
  used_volume : ℚ
  waste_volume : ℚ
  waste_percent : ℚ
  product_count : Nat
  by_product : List (Cell × PStats)
  by_location : List (String × LStats)
  uploaded_at : String
deriving Repr, DecidableEq

/-- Lines 694–705: the record body built from a per-date bucket. -/
def mkUsageRecord (id : Nat) (date : String) (b : UBucket) (now : String) :
    UsageRecord :=
  { id := id, date := date,
    total_volume := round2 b.total_volume,
    used_volume := round2 b.used_volume,
    waste_volume := round2 b.waste_volume,
    waste_percent :=
      if 0 < b.total_volume then round1 (b.waste_volume * 100 / b.total_volume)
      else 0,
    product_count := b.product_count,
    by_product := b.by_product,
    by_location := b.by_location,
    uploaded_at := now }

def usageReplace (date : String) (b : UBucket) (now : String) :
    List UsageRecord → Option (List UsageRecord)
  | [] => none
  | r :: rs =>
    if r.date = date then some (mkUsageRecord r.id date b now :: rs)
    else (usageReplace date b now rs).map (r :: ·)

structure UsageUpAcc where
  col : List UsageRecord
  nextId : Nat
  added : Nat
  updated : Nat
deriving Repr, DecidableEq

/-- Lines 692–714: upsert one per-date bucket. -/
def usageUpsert (acc : UsageUpAcc) (date : String) (b : UBucket) (now : String) :
    UsageUpAcc :=
  match usageReplace date b now acc.col with
  | some col' => { acc with col := col', updated := acc.updated + 1 }
  | none =>
    { acc with
      col := acc.col ++ [mkUsageRecord acc.nextId date b now],
      nextId := acc.nextId + 1,
      added := acc.added + 1 }

def usageSave (byDate : List (String × UBucket)) (acc : UsageUpAcc)
    (now : String) : UsageUpAcc :=
  byDate.foldl (fun a p => usageUpsert a p.1 p.2 now) acc

structure UsageState where
  mem : List UsageRecord
  disk : List UsageRecord
deriving Repr, DecidableEq

structure UsageOut where
  state : UsageState
  nextId : Nat
  resp : UploadResp
deriving Repr, DecidableEq

def usageSortLe (a b : UsageRecord) : Bool := strLe b.date a.date

/-- `POST /api/upload/usage` (lines 602–724). -/
def usageIngest (raw : List Row) (st : UsageState) (nextId : Nat)
    (now : String) : UsageOut :=
  match raw with
  | [] =>
    { state := st, nextId := nextId,
      resp := .err "Cannot read properties of undefined" }
  | header :: rows =>
    let ci := usageCols header
    match usageLoop ci rows ⟨[], [], 0, 0⟩ with
    | .error e => { state := st, nextId := nextId, resp := .err e }
    | .ok uacc =>
      let up := usageSave uacc.byDate ⟨st.mem, nextId, 0, 0⟩ now
      let sorted := jsSort usageSortLe up.col
      { state := { mem := sorted, disk := sorted }, nextId := up.nextId,
        resp := .ok up.added up.updated }

/-- Componentwise addition on `(used, waste, count)` observation triples. -/
def addT (a b : ℚ × ℚ × Nat) : ℚ × ℚ × Nat :=
  (a.1 + b.1, a.2.1 + b.2.1, a.2.2 + b.2.2)

/-- The `(used, waste, count)` stored under date key `d` and location key
`k` of a usage `byDate` map; zero when absent. -/
def locStats (byDate : List (String × UBucket)) (d k : String) : ℚ × ℚ × Nat :=
  match aget byDate d with
  | none => (0, 0, 0)
  | some b =>
    match aget b.by_location k with
    | none => (0, 0, 0)
    | some l => (l.used, l.waste, l.count)

/-- What one usage row contributes to the `(d, k)` location bucket. -/
def usageRowLoc (ci : UCols) (row : Row) (d k : String) : ℚ × ℚ × Nat :=
  match usageRowInfo ci row with
  | .contrib date _ _ _ used waste lk =>
    if date = d ∧ lk = k then (used, waste, 1) else (0, 0, 0)
  | _ => (0, 0, 0)

/-- The total contribution of a row list to the `(d, k)` location bucket. -/
def sumRowLoc (ci : UCols) (rows : List Row) (d k : String) : ℚ × ℚ × Nat :=
  rows.foldr (fun row acc => addT (usageRowLoc ci row d k) acc) (0, 0, 0)

/-! ## Detailed-wastage ingest

`POST /api/upload/detailed-wastage` (lines 1055–1163): header-keyed rows,
aggregated into one replace-whole-document snapshot with flat `by_date`,
`by_product` and `by_location` maps; `by_location` is keyed by the patient
location truncated at its first dash (line 1128). -/

/-- JS `String.prototype.includes` for a non-empty needle. -/
def strIncludes (s sub : String) : Bool := hasSub sub.data s.data

/-- A `by_date` bucket of the detailed-wastage document (lines 1093–1108). -/
structure DDate where
  total_volume : ℚ
  used_volume : ℚ
  waste_volume : ℚ
  product_count : Nat
  multi_dose_count : Nat
  stock_count : Nat
deriving Repr, DecidableEq

/-- A `by_product` bucket (lines 1111–1125); the flags are fixed at
creation from the first contributing row. -/
structure DProd where
  ndc : Cell
  total_volume : ℚ
  used_volume : ℚ
  waste_volume : ℚ
  count : Nat
  is_multi_dose : Bool
  is_stock : Bool
deriving Repr, DecidableEq

/-- A `by_location` bucket (lines 1128–1135). -/
structure DLoc where
  total_volume : ℚ
  used_volume : ℚ
  waste_volume : ℚ
  count : Nat
deriving Repr, DecidableEq

/-- What one detailed-wastage row contributes: `skip` for a falsy
preparation time (line 1070), `throw` for a non-numeric date serial, a
truthy numeric string-method receiver, or a non-numeric truthy BUD time,
else a contribution. -/
inductive DRowInfo where
  | skip
  | throw (e : String)
  | contrib (date : String) (productName : String) (ndc : Cell)
      (totalVolume used waste : ℚ) (isMultiDose isStock : Bool) (lk : String)
deriving Repr, DecidableEq

def detailedRowInfo (row : JRow) : DRowInfo :=
  let prepTimeSerial := jget row "Dose Preparation Time"
  if ¬prepTimeSerial.truthy then .skip
  else
    match cellToNumber prepTimeSerial with
    | none => .throw "Invalid time value"
    | some serial =>
      let date := excelDateToISO serial
      let location := jsOr (jget row "Patient Location") (Cell.str "Unknown")
      let productNameC := jsOr (jget row "Product Name") (Cell.str "")
      let productNDC := jsOr (jget row "Product NDC") (Cell.str "")
      let totalVolume := jsParseFloatD0 (jget row "Product Total Volume")
      let unusedVolume := jsParseFloatD0 (jget row "Product Unused Volume")
      let isMultiDose := jget row "Multi-Dose Product" = Cell.str "Yes"
      let doseDescC := jsOr (jget row "Dose Description") (Cell.str "")
      let budTimeCell := jget row "Product BUD Time"
      let budBad := budTimeCell.truthy ∧ cellToNumber budTimeCell = none
      if budBad then .throw "Invalid time value"
      else
        match cellString doseDescC, cellString productNameC with
        | .error e, _ => .throw e
        | _, .error e => .throw e
        | .ok doseDesc, .ok productName =>
          let isStock := strIncludes (lowerStr doseDesc) "stock" ∨
            strIncludes (lowerStr productName) "stock"
          match cellString location with
          | .error e => .throw e
          | .ok locStr =>
            .contrib date productName productNDC totalVolume
              (totalVolume - unusedVolume) unusedVolume isMultiDose isStock
              (locKey locStr)

structure DWAcc where
  byDate : List (String × DDate)
  byProduct : List (String × DProd)
  byLocation : List (String × DLoc)
  records : Nat
  total_waste_ml : ℚ
deriving Repr, DecidableEq

def detailedRowStep (acc : DWAcc) (row : JRow) : Except String DWAcc :=
  match detailedRowInfo row with
  | .skip => .ok acc
  | .throw e => .error e
  | .contrib date productName ndc totalVolume used waste isMultiDose isStock lk =>
    .ok
      { byDate := aupd acc.byDate date ⟨0, 0, 0, 0, 0, 0⟩ (fun b =>
          { total_volume := b.total_volume + totalVolume,
            used_volume := b.used_volume + used,
            waste_volume := b.waste_volume + waste,
            product_count := b.product_count + 1,
            multi_dose_count := b.multi_dose_count + (if isMultiDose then 1 else 0),
            stock_count := b.stock_count + (if isStock then 1 else 0) }),
        byProduct := aupd acc.byProduct productName
          ⟨ndc, 0, 0, 0, 0, isMultiDose, isStock⟩ (fun p =>
          { p with
            total_volume := p.total_volume + totalVolume,
            used_volume := p.used_volume + used,
            waste_volume := p.waste_volume + waste,
            count := p.count + 1 }),
        byLocation := aupd acc.byLocation lk ⟨0, 0, 0, 0⟩ (fun l =>
          { total_volume := l.total_volume + totalVolume,
            used_volume := l.used_volume + used,
            waste_volume := l.waste_volume + waste,
            count := l.count + 1 }),
        records := acc.records + 1,
        total_waste_ml := acc.total_waste_ml + waste }

def detailedLoop : List JRow → DWAcc → Except String DWAcc
  | [], acc => .ok acc
  | row :: rest, acc =>
    match detailedRowStep acc row with
    | .error e => .error e
    | .ok acc' => detailedLoop rest acc'

/-- The `(used, waste, count)` stored under location key `k` of the
detailed-wastage `byLocation` map; zero when absent. -/
def dlocStats (m : List (String × DLoc)) (k : String) : ℚ × ℚ × Nat :=
  match aget m k with
  | none => (0, 0, 0)
  | some l => (l.used_volume, l.waste_volume, l.count)

/-- What one detailed-wastage row contributes to location bucket `k`. -/
def detailedRowLoc (row : JRow) (k : String) : ℚ × ℚ × Nat :=
  match detailedRowInfo row with
  | .contrib _ _ _ _ used waste _ _ lk =>
    if lk = k then (used, waste, 1) else (0, 0, 0)
  | _ => (0, 0, 0)

/-- The total contribution of a row list to location bucket `k`. -/
def sumRowDLoc (rows : List JRow) (k : String) : ℚ × ℚ × Nat :=
  rows.foldr (fun row acc => addT (detailedRowLoc row k) acc) (0, 0, 0)

/-- The replace-whole-document detailed-wastage snapshot (lines 1141–1155). -/
structure DetailedWastageDoc where
  by_date : List (String × DDate)
  by_product : List (String × DProd)
  by_location : List (String × DLoc)
  total_records : Nat
  total_dates : Nat
  total_waste_ml : ℚ
  date_range_start : Option String
  date_range_end : Option String
  uploaded_at : String
deriving Repr, DecidableEq

/-- `POST /api/upload/detailed-wastage` (lines 1055–1163): on success the
whole document is replaced; a throw leaves the old document. -/
def detailedWastageIngest (raw : List JRow) (old : DetailedWastageDoc)
    (now : String) : DetailedWastageDoc × UploadResp :=
  match detailedLoop raw ⟨[], [], [], 0, 0⟩ with
  | .error e => (old, .err e)
  | .ok acc =>
    let sortedKeys := jsSort strLe (acc.byDate.map (·.1))
    ({ by_date := acc.byDate,
       by_product := acc.byProduct,
       by_location := acc.byLocation,
       total_records := acc.records,
       total_dates := acc.byDate.length,
       total_waste_ml := round1 acc.total_waste_ml,
       date_range_start := sortedKeys.head?,
       date_range_end := sortedKeys.getLast?,
       uploaded_at := now },
     .ok acc.records acc.byDate.length)

/-! ## Stock-doses ingest

`POST /api/upload/stock-doses` (lines 1255–1334): each row's `Dose` string
is classified by its tag — `DILUTION:` rows to the dilutions list,
everything else (including `STOCK:` and untagged strings) to the stocks
list — and cleaned into a drug name and size. -/

/-- Case-insensitive prefix test against a lowercase pattern. -/
def ciStarts (cs pat : List Char) : Bool :=
  decide ((cs.take pat.length).map Char.toLower = pat)

/-- The unit alternation `(ML|MG|MCG|UNITS?)` of the size pattern, tried in
order with a greedy optional `S`. -/
def sizeUnitAt (cs : List Char) : Option (List Char) :=
  if ciStarts cs ['m', 'l'] then some (cs.take 2)
  else if ciStarts cs ['m', 'g'] then some (cs.take 2)
  else if ciStarts cs ['m', 'c', 'g'] then some (cs.take 3)
  else if ciStarts cs ['u', 'n', 'i', 't', 's'] then some (cs.take 5)
  else if ciStarts cs ['u', 'n', 'i', 't'] then some (cs.take 4)
  else none

/-- Match `\d+\.?\d*\s*(ML|MG|MCG|UNITS?)` at the start of `cs`, returning
the matched characters. -/
def sizeMatchAt (cs : List Char) : Option (List Char) :=
  let ds := cs.takeWhile Char.isDigit
  if ds.isEmpty then none else
  let r1 := cs.drop ds.length
  let dot := match r1 with
    | '.' :: _ => ['.']
    | _ => []
  let r2 := r1.drop dot.length
  let fs := r2.takeWhile Char.isDigit
  let r3 := r2.drop fs.length
  let ws := r3.takeWhile Char.isWhitespace
  let r4 := r3.drop ws.length
  match sizeUnitAt r4 with
  | some u => some (ds ++ dot ++ fs ++ ws ++ u)
  | none => none

def sizeScan : List Char → Option (List Char)
  | [] => none
  | c :: rest =>
    match sizeMatchAt (c :: rest) with
    | some m => some m
    | none => sizeScan rest

/-- `dose.match(/(\d+\.?\d*)\s*(ML|MG|MCG|UNITS?)/i)`: the leftmost match,
or `''` when there is none (lines 1282–1286). -/
def extractSize (s : String) : String :=
  match sizeScan s.data with
  | some m => String.mk m
  | none => ""

/-- `dose.replace(/^(DILUTION|STOCK):\s*/i, '')`. -/
def dropLeadTag (s : String) : String :=
  let cs := s.data
  if ciStarts cs juxDilution then
    String.mk ((cs.drop 9).dropWhile Char.isWhitespace)
  else if ciStarts cs juxStock then
    String.mk ((cs.drop 6).dropWhile Char.isWhitespace)
  else s
where
  juxDilution : List Char := ['d', 'i', 'l', 'u', 't', 'i', 'o', 'n', ':']
  juxStock : List Char := ['s', 't', 'o', 'c', 'k', ':']

/-- Match `BAXA\s*-\s*` at the start of `cs`, returning the match length. -/
def baxaMatchAt (cs : List Char) : Option Nat :=
  if ciStarts cs ['b', 'a', 'x', 'a'] then
    let r1 := cs.drop 4
    let ws1 := r1.takeWhile Char.isWhitespace
    let r2 := r1.drop ws1.length
    match r2 with
    | '-' :: r3 =>
      let ws2 := r3.takeWhile Char.isWhitespace
      some (4 + ws1.length + 1 + ws2.length)
    | _ => none
  else none

/-- `.replace(/BAXA\s*-\s*/i, '')`: remove the first occurrence. -/
def removeBaxa : List Char → List Char
  | [] => []
  | c :: rest =>
    match baxaMatchAt (c :: rest) with
    | some n => (c :: rest).drop n
    | none => c :: removeBaxa rest

/-- Lines 1289–1292: strip the leading tag, remove `BAXA -`, trim. -/
def cleanDoseName (s : String) : String :=
  String.mk (trimWs (removeBaxa (dropLeadTag s).data))

/-- `dose.toUpperCase().startsWith(tag)`. -/
def upperStarts (s tag : String) : Bool := leadsWith (s.data.map Char.toUpper) tag.data

/-- A classified stock/dilution record (lines 1294–1300). -/
structure StockRecord where
  name : String
  original : String
  total : Int
  size : String
  type : String
deriving Repr, DecidableEq

/-- `row.Dose || row.dose || ''` (line 1267). -/
def doseOf (row : JRow) : Cell :=
  jsOr (jget row "Dose") (jsOr (jget row "dose") (Cell.str ""))

/-- The classified record built from one dose string (lines 1277–1300). -/
def stockRecOf (dose : String) (total : Int) : StockRecord :=
  let isDilution := upperStarts dose "DILUTION:"
  let isStock := upperStarts dose "STOCK:"
  { name := cleanDoseName dose,
    original := dose,
    total := total,
    size := extractSize dose,
    type := if isDilution then "Dilution" else if isStock then "Stock" else "Other" }

structure StockAcc where
  stocks : List StockRecord
  dilutions : List StockRecord
  stocksCount : Nat
  dilutionsCount : Nat
  total_doses : Int
deriving Repr, DecidableEq

/-- One iteration of the stock-doses row loop (lines 1266–1309): a row with
a falsy dose value is dropped; a truthy numeric dose value throws (string
method on a number) after the total was already counted. -/
def stockRowStep (acc : StockAcc) (row : JRow) : Except String StockAcc :=
  let doseC := doseOf row
  let total := jsParseIntD0 (jget row "Total")
  if ¬doseC.truthy then .ok acc
  else
    let acc := { acc with total_doses := acc.total_doses + total }
    match cellString doseC with
    | .error e => .error e
    | .ok dose =>
      if upperStarts dose "DILUTION:" then
        .ok { acc with dilutions := acc.dilutions ++ [stockRecOf dose total],
                       dilutionsCount := acc.dilutionsCount + 1 }
      else
        .ok { acc with stocks := acc.stocks ++ [stockRecOf dose total],
                       stocksCount := acc.stocksCount + 1 }

def stockLoop : List JRow → StockAcc → Except String StockAcc
  | [], acc => .ok acc
  | row :: rest, acc =>
    match stockRowStep acc row with
    | .error e => .error e
    | .ok acc' => stockLoop rest acc'

/-- The replace-whole-document stock-doses snapshot (lines 1316–1326). -/
structure StockDosesDoc where
  stocks : List StockRecord
  dilutions : List StockRecord
  all : List StockRecord
  total_stock_types : Nat
  total_dilution_types : Nat
  total_doses_made : Int
  uploaded_at : String
deriving Repr, DecidableEq

def stockSortLe (a b : StockRecord) : Bool := decide (b.total ≤ a.total)

/-- `POST /api/upload/stock-doses` (lines 1255–1334): classify every row,
sort both lists descending by total, and replace the whole document. -/
def stockDosesIngest (raw : List JRow) (old : StockDosesDoc) (now : String) :
    StockDosesDoc × UploadResp :=
  match stockLoop raw ⟨[], [], 0, 0, 0⟩ with
  | .error e => (old, .err e)
  | .ok acc =>
    let stocks := jsSort stockSortLe acc.stocks
    let dilutions := jsSort stockSortLe acc.dilutions
    ({ stocks := stocks,
       dilutions := dilutions,
       all := jsSort stockSortLe (stocks ++ dilutions),
       total_stock_types := acc.stocksCount,
       total_dilution_types := acc.dilutionsCount,
       total_doses_made := acc.total_doses,
       uploaded_at := now },
     .ok acc.stocksCount acc.dilutionsCount)

/-! ## Observation functions for re-ingest idempotence

The production collection's natural key is the date string; these
observation functions read a collection by key and compare two optional
records up to `uploaded_at`. -/

/-- The first stored record with the given date (`findIndex` semantics). -/
def getByDate (col : List ProdRecord) (d : String) : Option ProdRecord :=
  col.find? (fun r => r.date == d)

/-- Equality of two optional records except for `uploaded_at`. -/
def sameCoreb : Option ProdRecord → Option ProdRecord → Bool
  | none, none => true
  | some a, some b =>
    decide (a.id = b.id) && decide (a.date = b.date) &&
    decide (a.total_doses = b.total_doses) && decide (a.hourly = b.hourly)
  | _, _ => false

/-- Whether a production data row is processed and keyed to date `d`. -/
def rowContributes (row : Row) (d : String) : Bool :=
  (getCell row 0).truthy &&
    match cellToNumber (getCell row 0) with
    | some serial => excelDateToISO serial == d
    | none => false

/-- The last row of the upload keyed to date `d` (the last writer wins
under whole-record replacement). -/
def lastRowFor (d : String) : List Row → Option Row
  | [] => none
  | row :: rest =>
    match lastRowFor d rest with
    | some r => some r
    | none => if rowContributes row d then some row else none

/-- The number of processed (non-skipped) data rows of an upload. -/
def activeCount (rows : List Row) : Nat :=
  (rows.filter (fun row => (getCell row 0).truthy)).length

/-! ## Association-list lemmas -/

theorem aget_aset_self {κ α : Type} [DecidableEq κ] (m : List (κ × α)) (k : κ)
    (v : α) : aget (aset m k v) k = some v := by
  induction m with
  | nil => simp [aset, aget]
  | cons p rest ih =>
    by_cases h : p.1 = k
    · simp [aset, aget, h]
    · simp [aset, aget, h, ih]

theorem aget_aset_ne {κ α : Type} [DecidableEq κ] (m : List (κ × α)) (k : κ)
    (v : α) (k' : κ) (h : k' ≠ k) : aget (aset m k v) k' = aget m k' := by
  induction m with
  | nil =>
    simp only [aset, aget]
    rw [if_neg (Ne.symm h)]
  | cons p rest ih =>
    by_cases hp : p.1 = k
    · subst hp
      simp only [aset, if_pos rfl, aget]
      rw [if_neg (Ne.symm h), if_neg (Ne.symm h)]
    · simp only [aset, if_neg hp, aget]
      by_cases hp' : p.1 = k'
      · rw [if_pos hp', if_pos hp']
      · rw [if_neg hp', if_neg hp', ih]

theorem aset_of_aget_none {κ α : Type} [DecidableEq κ] (m : List (κ × α))
    (k : κ) (v : α) (h : aget m k = none) : aset m k v = m ++ [(k, v)] := by
  induction m with
  | nil => simp [aset]
  | cons p rest ih =>
    by_cases hp : p.1 = k
    · simp [aget, hp] at h
    · simp only [aget, if_neg hp] at h
      simp [aset, hp, ih h]

theorem aget_aupd_self {κ α : Type} [DecidableEq κ] (m : List (κ × α)) (k : κ)
    (init : α) (f : α → α) :
    aget (aupd m k init f) k =
      some (f ((aget m k).getD init)) := by
  induction m with
  | nil => simp [aupd, aget]
  | cons p rest ih =>
    by_cases h : p.1 = k
    · simp [aupd, aget, h]
    · simp [aupd, aget, h, ih]

theorem aget_aupd_ne {κ α : Type} [DecidableEq κ] (m : List (κ × α)) (k : κ)
    (init : α) (f : α → α) (k' : κ) (h : k' ≠ k) :
    aget (aupd m k init f) k' = aget m k' := by
  induction m with
  | nil =>
    simp only [aupd, aget]
    rw [if_neg (Ne.symm h)]
  | cons p rest ih =>
    by_cases hp : p.1 = k
    · subst hp
      simp only [aupd, if_pos rfl, aget]
      rw [if_neg (Ne.symm h), if_neg (Ne.symm h)]
    · simp only [aupd, if_neg hp, aget]
      by_cases hp' : p.1 = k'
      · rw [if_pos hp', if_pos hp']
      · rw [if_neg hp', if_neg hp', ih]

theorem aupd_keys {κ α : Type} [DecidableEq κ] (m : List (κ × α)) (k : κ)
    (init : α) (f : α → α) :
    (aupd m k init f).map (·.1) = m.map (·.1) ∨
      (aupd m k init f).map (·.1) = m.map (·.1) ++ [k] := by
  induction m with
  | nil => right; simp [aupd]
  | cons p rest ih =>
    by_cases h : p.1 = k
    · left; simp [aupd, h]
    · rcases ih with ih | ih
      · left; simp [aupd, h, ih]
      · right; simp [aupd, h, ih]

theorem aupd_keys_nodup {κ α : Type} [DecidableEq κ] (m : List (κ × α)) (k : κ)
    (init : α) (f : α → α) (h : (m.map (·.1)).Nodup) :
    ((aupd m k init f).map (·.1)).Nodup := by
  induction m with
  | nil => simp [aupd]
  | cons p rest ih =>
    simp only [List.map_cons, List.nodup_cons] at h
    by_cases hp : p.1 = k
    · simp only [aupd, if_pos hp, List.map_cons, List.nodup_cons]
      exact ⟨h.1, h.2⟩
    · simp only [aupd, if_neg hp, List.map_cons, List.nodup_cons]
      refine ⟨?_, ih h.2⟩
      intro hmem
      rcases aupd_keys rest k init f with hk | hk
      · rw [hk] at hmem; exact h.1 hmem
      · rw [hk] at hmem
        rcases List.mem_append.mp hmem with hmem | hmem
        · exact h.1 hmem
        · simp at hmem; exact hp hmem

theorem mem_of_nodup_aget {κ α : Type} [DecidableEq κ] (m : List (κ × α))
    (p : κ × α) (hnd : (m.map (·.1)).Nodup) (hp : p ∈ m) :
    aget m p.1 = some p.2 := by
  induction m with
  | nil => simp at hp
  | cons q rest ih =>
    simp only [List.map_cons, List.nodup_cons] at hnd
    rcases List.mem_cons.mp hp with h | h
    · subst h; simp [aget]
    · have hne : q.1 ≠ p.1 := by
        intro he
        exact hnd.1 (he ▸ List.mem_map_of_mem (·.1) h)
      simp only [aget, if_neg hne]
      exact ih hnd.2 h

/-! ## Production/bypass upsert lemmas -/

theorem prodReplace_eq_none (d : String) (t : Int) (h : List (HKey × Int))
    (n : String) (col : List ProdRecord) (hnone : ∀ r ∈ col, r.date ≠ d) :
    prodReplace d t h n col = none := by
  induction col with
  | nil => rfl
  | cons r rs ih =>
    simp only [prodReplace, if_neg (hnone r (List.mem_cons_self r rs))]
    rw [ih fun x hx => hnone x (List.mem_cons_of_mem r hx)]
    rfl

theorem prodReplace_split (d : String) (t : Int) (h : List (HKey × Int))
    (n : String) (pre : List ProdRecord) (old : ProdRecord)
    (post : List ProdRecord) (hpre : ∀ r ∈ pre, r.date ≠ d)
    (hold : old.date = d) :
    prodReplace d t h n (pre ++ old :: post) =
      some (pre ++ { id := old.id, date := d, total_doses := t, hourly := h,
                     uploaded_at := n } :: post) := by
  induction pre with
  | nil => simp [prodReplace, hold]
  | cons r rs ih =>
    have hr : r.date ≠ d := hpre r (List.mem_cons_self r rs)
    have ih' := ih fun x hx => hpre x (List.mem_cons_of_mem r hx)
    simp only [List.cons_append, prodReplace, if_neg hr, ih', List.append_eq, Option.map_some']

theorem mem_prodReplace (d : String) (t : Int) (h : List (HKey × Int))
    (n : String) (col col' : List ProdRecord)
    (heq : prodReplace d t h n col = some col') (r : ProdRecord)
    (hr : r ∈ col') : r ∈ col ∨ (r.total_doses = t ∧ r.hourly = h) := by
  induction col generalizing col' with
  | nil => simp [prodReplace] at heq
  | cons r0 rs ih =>
    by_cases h0 : r0.date = d
    · simp only [prodReplace, if_pos h0, Option.some.injEq] at heq
      subst heq
      rcases List.mem_cons.mp hr with h1 | h1
      · right; rw [h1]
        exact ⟨rfl, rfl⟩
      · left; exact List.mem_cons_of_mem r0 h1
    · simp only [prodReplace, if_neg h0] at heq
      cases hrec : prodReplace d t h n rs with
      | none => rw [hrec] at heq; simp at heq
      | some col'' =>
        rw [hrec] at heq
        simp only [Option.map_some', Option.some.injEq] at heq
        subst heq
        rcases List.mem_cons.mp hr with h1 | h1
        · left; rw [h1]; exact List.mem_cons_self r0 rs
        · rcases ih col'' hrec h1 with h2 | h2
          · left; exact List.mem_cons_of_mem r0 h2
          · right; exact h2

theorem mem_prodUpsert (acc : ProdAcc) (d : String) (t : Int)
    (h : List (HKey × Int)) (n : String) (r : ProdRecord)
    (hr : r ∈ (prodUpsert acc d t h n).col) :
    r ∈ acc.col ∨ (r.total_doses = t ∧ r.hourly = h) := by
  unfold prodUpsert at hr
  cases heq : prodReplace d t h n acc.col with
  | some col' =>
    rw [heq] at hr
    exact mem_prodReplace d t h n acc.col col' heq r hr
  | none =>
    rw [heq] at hr
    rcases List.mem_append.mp hr with h1 | h1
    · left; exact h1
    · right
      simp at h1
      rw [h1]
      exact ⟨rfl, rfl⟩

theorem bypassReplace_eq_none (loc : Cell) (t : Int) (h : List (HKey × Int))
    (n : String) (col : List BypassRecord)
    (hnone : ∀ r ∈ col, r.location ≠ loc) :
    bypassReplace loc t h n col = none := by
  induction col with
  | nil => rfl
  | cons r rs ih =>
    simp only [bypassReplace, if_neg (hnone r (List.mem_cons_self r rs))]
    rw [ih fun x hx => hnone x (List.mem_cons_of_mem r hx)]
    rfl

theorem bypassReplace_split (loc : Cell) (t : Int) (h : List (HKey × Int))
    (n : String) (pre : List BypassRecord) (old : BypassRecord)
    (post : List BypassRecord) (hpre : ∀ r ∈ pre, r.location ≠ loc)
    (hold : old.location = loc) :
    bypassReplace loc t h n (pre ++ old :: post) =
      some (pre ++ { id := old.id, location := loc, total_bypasses := t,
                     hourly := h, uploaded_at := n } :: post) := by
  induction pre with
  | nil => simp [bypassReplace, hold]
  | cons r rs ih =>
    have hr : r.location ≠ loc := hpre r (List.mem_cons_self r rs)
    have ih' := ih fun x hx => hpre x (List.mem_cons_of_mem r hx)
    simp only [List.cons_append, bypassReplace, if_neg hr, ih', List.append_eq, Option.map_some']

theorem mem_bypassReplace (loc : Cell) (t : Int) (h : List (HKey × Int))
    (n : String) (col col' : List BypassRecord)
    (heq : bypassReplace loc t h n col = some col') (r : BypassRecord)
    (hr : r ∈ col') : r ∈ col ∨ (r.total_bypasses = t ∧ r.hourly = h) := by
  induction col generalizing col' with
  | nil => simp [bypassReplace] at heq
  | cons r0 rs ih =>
    by_cases h0 : r0.location = loc
    · simp only [bypassReplace, if_pos h0, Option.some.injEq] at heq
      subst heq
      rcases List.mem_cons.mp hr with h1 | h1
      · right; rw [h1]
        exact ⟨rfl, rfl⟩
      · left; exact List.mem_cons_of_mem r0 h1
    · simp only [bypassReplace, if_neg h0] at heq
      cases hrec : bypassReplace loc t h n rs with
      | none => rw [hrec] at heq; simp at heq
      | some col'' =>
        rw [hrec] at heq
        simp only [Option.map_some', Option.some.injEq] at heq
        subst heq
        rcases List.mem_cons.mp hr with h1 | h1
        · left; rw [h1]; exact List.mem_cons_self r0 rs
        · rcases ih col'' hrec h1 with h2 | h2
          · left; exact List.mem_cons_of_mem r0 h2
          · right; exact h2

theorem mem_bypassUpsert (acc : BypassAcc) (loc : Cell) (t : Int)
    (h : List (HKey × Int)) (n : String) (r : BypassRecord)
    (hr : r ∈ (bypassUpsert acc loc t h n).col) :
    r ∈ acc.col ∨ (r.total_bypasses = t ∧ r.hourly = h) := by
  unfold bypassUpsert at hr
  cases heq : bypassReplace loc t h n acc.col with
  | some col' =>
    rw [heq] at hr
    exact mem_bypassReplace loc t h n acc.col col' heq r hr
  | none =>
    rw [heq] at hr
    rcases List.mem_append.mp hr with h1 | h1
    · left; exact h1
    · right
      simp at h1
      rw [h1]
      exact ⟨rfl, rfl⟩

/-! ## Stable-sort lemmas -/

theorem insertLe_perm {α : Type} (le : α → α → Bool) (x : α) (l : List α) :
    List.Perm (insertLe le x l) (x :: l) := by
  induction l with
  | nil => exact List.Perm.refl _
  | cons y ys ih =>
    by_cases h : le y x
    · simp only [insertLe, if_pos h]
      exact (ih.cons y).trans (List.Perm.swap x y ys)
    · simp only [insertLe, if_neg h]
      exact List.Perm.refl _

theorem jsSortAux_perm {α : Type} (le : α → α → Bool) (l acc : List α) :
    List.Perm (l.foldl (fun a x => insertLe le x a) acc) (acc ++ l) := by
  induction l generalizing acc with
  | nil => simp
  | cons x xs ih =>
    simp only [List.foldl_cons]
    exact ((ih (insertLe le x acc)).trans
      (((insertLe_perm le x acc).append_right xs).trans
        List.perm_middle.symm))

theorem jsSort_perm {α : Type} (le : α → α → Bool) (l : List α) :
    List.Perm (jsSort le l) l := by
  simpa [jsSort] using jsSortAux_perm le l []

theorem mem_jsSort {α : Type} (le : α → α → Bool) (l : List α) (a : α) :
    a ∈ jsSort le l ↔ a ∈ l :=
  (jsSort_perm le l).mem_iff

theorem length_jsSort {α : Type} (le : α → α → Bool) (l : List α) :
    (jsSort le l).length = l.length :=
  (jsSort_perm le l).length_eq

theorem insertLe_of_all_le {α : Type} (le : α → α → Bool) (x : α) (l : List α)
    (h : ∀ y ∈ l, le y x) : insertLe le x l = l ++ [x] := by
  induction l with
  | nil => rfl
  | cons y ys ih =>
    simp only [insertLe, if_pos (h y (List.mem_cons_self y ys))]
    rw [ih fun z hz => h z (List.mem_cons_of_mem y hz)]
    rfl

theorem jsSortAux_of_sorted {α : Type} (le : α → α → Bool) (l acc : List α)
    (h : (acc ++ l).Pairwise (fun a b => le a b)) :
    l.foldl (fun a x => insertLe le x a) acc = acc ++ l := by
  induction l generalizing acc with
  | nil => simp
  | cons x xs ih =>
    simp only [List.foldl_cons]
    have hall : ∀ y ∈ acc, le y x := by
      intro y hy
      exact (List.pairwise_append.mp h).2.2 y hy x (List.mem_cons_self x xs)
    rw [insertLe_of_all_le le x acc hall]
    have hre : (acc ++ [x]) ++ xs = acc ++ x :: xs := by simp
    rw [ih (acc ++ [x]) (by rw [hre]; exact h), hre]

theorem jsSort_of_sorted {α : Type} (le : α → α → Bool) (l : List α)
    (h : l.Pairwise (fun a b => le a b)) : jsSort le l = l := by
  simpa [jsSort] using jsSortAux_of_sorted le l [] (by simpa using h)

theorem pairwise_insertLe {α : Type} (le : α → α → Bool)
    (htr : ∀ a b c, le a b → le b c → le a c)
    (hto : ∀ a b, le a b ∨ le b a) (x : α) (l : List α)
    (h : l.Pairwise (fun a b => le a b)) :
    (insertLe le x l).Pairwise (fun a b => le a b) := by
  induction l with
  | nil => simp [insertLe]
  | cons y ys ih =>
    rcases List.pairwise_cons.mp h with ⟨hy, hys⟩
    by_cases hle : le y x
    · simp only [insertLe, if_pos hle]
      refine List.pairwise_cons.mpr ⟨?_, ih hys⟩
      intro z hz
      rcases List.mem_cons.mp ((insertLe_perm le x ys).mem_iff.mp hz) with h1 | h1
      · rw [h1]; exact hle
      · exact hy z h1
    · simp only [insertLe, if_neg hle]
      have hxy : le x y := (hto x y).resolve_right hle
      refine List.pairwise_cons.mpr ⟨?_, h⟩
      intro z hz
      rcases List.mem_cons.mp hz with h1 | h1
      · rw [h1]; exact hxy
      · exact htr x y z hxy (hy z h1)

theorem sorted_jsSortAux {α : Type} (le : α → α → Bool)
    (htr : ∀ a b c, le a b → le b c → le a c)
    (hto : ∀ a b, le a b ∨ le b a) (l acc : List α)
    (hacc : acc.Pairwise (fun a b => le a b)) :
    (l.foldl (fun a x => insertLe le x a) acc).Pairwise (fun a b => le a b) := by
  induction l generalizing acc with
  | nil => simpa using hacc
  | cons x xs ih =>
    simp only [List.foldl_cons]
    exact ih (insertLe le x acc) (pairwise_insertLe le htr hto x acc hacc)

theorem sorted_jsSort {α : Type} (le : α → α → Bool)
    (htr : ∀ a b c, le a b → le b c → le a c)
    (hto : ∀ a b, le a b ∨ le b a) (l : List α) :
    (jsSort le l).Pairwise (fun a b => le a b) :=
  sorted_jsSortAux le htr hto l [] (List.Pairwise.nil)

/-! ## The hourly-total invariant -/

theorem hourTotals_aux (row : Row) (hm : List (Nat × HKey))
    (m : List (HKey × Int)) (t : Int)
    (hnd : (hm.map (·.2)).Nodup)
    (hfresh : ∀ k ∈ hm.map (·.2), aget m k = none)
    (ht : t = (avals m).sum) :
    (hm.foldl (fun acc p =>
      let c := jsParseIntD0 (getCell row p.1)
      (aset acc.1 p.2 c, acc.2 + c)) (m, t)).2 =
    (avals ((hm.foldl (fun acc p =>
      let c := jsParseIntD0 (getCell row p.1)
      (aset acc.1 p.2 c, acc.2 + c)) (m, t)).1)).sum := by
  induction hm generalizing m t with
  | nil => simpa using ht
  | cons p rest ih =>
    simp only [List.map_cons, List.nodup_cons] at hnd
    have hfp : aget m p.2 = none := hfresh p.2 (by simp)
    simp only [List.foldl_cons]
    apply ih
    · exact hnd.2
    · intro k hk
      have hkne : k ≠ p.2 := fun he => hnd.1 (he ▸ hk)
      rw [aget_aset_ne m p.2 _ k hkne]
      exact hfresh k (by simp [hk])
    · rw [aset_of_aget_none m p.2 _ hfp]
      simp [avals, ht]

theorem hourTotals_total_eq_sum (hm : List (Nat × HKey)) (row : Row)
    (hnd : (hm.map (·.2)).Nodup) :
    (hourTotals hm row).2 = (avals (hourTotals hm row).1).sum := by
  unfold hourTotals
  exact hourTotals_aux row hm [] 0 hnd (fun k _ => rfl) (by simp [avals])

theorem prodLoop_hourly_invariant (hm : List (Nat × HKey)) (now : String)
    (rows : List Row) (acc : ProdAcc)
    (hnd : (hm.map (·.2)).Nodup)
    (hacc : ∀ r ∈ acc.col, r.total_doses = (avals r.hourly).sum) :
    ∀ r ∈ (prodLoop hm now rows acc).1.col,
      r.total_doses = (avals r.hourly).sum := by
  induction rows generalizing acc with
  | nil => simpa [prodLoop] using hacc
  | cons row rest ih =>
    by_cases htr : (getCell row 0).truthy
    · simp only [prodLoop, if_pos htr]
      cases hc : cellToNumber (getCell row 0) with
      | none => simpa [hc] using hacc
      | some serial =>
        simp only [hc]
        apply ih
        intro r hr
        rcases mem_prodUpsert _ _ _ _ _ r hr with h1 | h1
        · exact hacc r h1
        · rw [h1.1, h1.2]
          exact hourTotals_total_eq_sum hm row hnd
    · simp only [prodLoop, if_neg htr]
      exact ih acc hacc

theorem bypassLoop_hourly_invariant (hm : List (Nat × HKey)) (now : String)
    (rows : List Row) (acc : BypassAcc)
    (hnd : (hm.map (·.2)).Nodup)
    (hacc : ∀ r ∈ acc.col, r.total_bypasses = (avals r.hourly).sum) :
    ∀ r ∈ (bypassLoop hm now rows acc).col,
      r.total_bypasses = (avals r.hourly).sum := by
  induction rows generalizing acc with
  | nil => simpa [bypassLoop] using hacc
  | cons row rest ih =>
    by_cases htr : (getCell row 0).truthy
    · simp only [bypassLoop, if_pos htr]
      apply ih
      intro r hr
      rcases mem_bypassUpsert _ _ _ _ _ r hr with h1 | h1
      · exact hacc r h1
      · rw [h1.1, h1.2]
        exact hourTotals_total_eq_sum hm row hnd
    · simp only [bypassLoop, if_neg htr]
      exact ih acc hacc

/-- **C1** (amended). As stated the claim fails: two header labels that
parse to the same hour (e.g. `"8:00"` and `"8:30"`) make
`hourly[hour] = count` overwrite while `totalDoses += count` accumulates.
Amended: provided the hour keys extracted from the header's labelled
columns are pairwise distinct, every record stored by a production or
bypass ingest (including records surviving from before the upload,
assumed to satisfy it) has `total_doses` (resp. `total_bypasses`) equal to
the sum of its `hourly` values. -/
theorem hourly_total_invariant_of_distinct_hour_labels
    (rawP rawB : List Row) (pst : ProdState) (bst : BypassState)
    (nP nB : Nat) (nowP nowB : String)
    (hndP : ((buildHourMap (rawP.headD [])).map (·.2)).Nodup)
    (hndB : ((buildHourMap (rawB.headD [])).map (·.2)).Nodup)
    (hmemP : ∀ r ∈ pst.mem, r.total_doses = (avals r.hourly).sum)
    (hmemB : ∀ r ∈ bst.mem, r.total_bypasses = (avals r.hourly).sum) :
    (∀ r ∈ (prodIngest rawP pst nP nowP).state.mem,
      r.total_doses = (avals r.hourly).sum) ∧
    (∀ r ∈ (bypassIngest rawB bst nB nowB).state.mem,
      r.total_bypasses = (avals r.hourly).sum) := by
  constructor
  · cases rawP with
    | nil => simpa [prodIngest] using hmemP
    | cons header rows =>
      simp only [List.headD_cons] at hndP
      by_cases hh : getCell header 0 = Cell.str "EntryDate"
      · simp only [prodIngest, if_neg (not_not_intro hh)]
        cases hlp : (prodLoop (buildHourMap header) nowP rows ⟨pst.mem, nP, 0, 0⟩).2 with
        | none =>
          simp only [hlp]
          intro r hr
          rw [mem_jsSort] at hr
          exact prodLoop_hourly_invariant _ _ _ _ hndP hmemP r hr
        | some e =>
          simp only [hlp]
          intro r hr
          exact prodLoop_hourly_invariant _ _ _ _ hndP hmemP r hr
      · simp only [prodIngest, if_pos hh]
        exact hmemP
  · cases rawB with
    | nil => simpa [bypassIngest] using hmemB
    | cons header rows =>
      simp only [List.headD_cons] at hndB
      by_cases hh : getCell header 0 = Cell.str "Location"
      · simp only [bypassIngest, if_neg (not_not_intro hh)]
        exact bypassLoop_hourly_invariant _ _ _ _ hndB hmemB
      · simp only [bypassIngest, if_pos hh]
        exact hmemB

/-- **C1** counterexample to the claim as stated: with the duplicate-hour
header `["EntryDate","8:00","8:30"]` and the row `[45000, 5, 7]` the
stored record has `total_doses = 12` but its hourly map sums to `7`. -/
theorem hourly_total_invariant_counterexample :
    (prodIngest [[Cell.str "EntryDate", Cell.str "8:00", Cell.str "8:30"],
                 [Cell.num 45000, Cell.num 5, Cell.num 7]]
      ⟨[], []⟩ 0 "T").state.mem =
      [{ id := 0, date := "2023-03-15", total_doses := 12,
         hourly := [(some 8, 7)], uploaded_at := "T" }] ∧
    (12 : Int) ≠ (avals [((some 8 : HKey), (7 : Int))]).sum := by
  exact ⟨by decide, by decide⟩

/-- **C1** witness: the amended theorem applied to a concrete production
and bypass upload with pairwise distinct hour labels. -/
theorem hourly_total_invariant_witness :
    (∀ r ∈ (prodIngest [[Cell.str "EntryDate", Cell.str "8:00", Cell.str "9:00"],
                        [Cell.num 45000, Cell.num 5, Cell.num 7]]
        ⟨[], []⟩ 0 "T").state.mem,
      r.total_doses = (avals r.hourly).sum) ∧
    (∀ r ∈ (bypassIngest [[Cell.str "Location", Cell.str "8:00"],
                          [Cell.str "ICU", Cell.num 3]]
        ⟨[], []⟩ 0 "T").state.mem,
      r.total_bypasses = (avals r.hourly).sum) :=
  hourly_total_invariant_of_distinct_hour_labels
    [[Cell.str "EntryDate", Cell.str "8:00", Cell.str "9:00"],
     [Cell.num 45000, Cell.num 5, Cell.num 7]]
    [[Cell.str "Location", Cell.str "8:00"], [Cell.str "ICU", Cell.num 3]]
    ⟨[], []⟩ ⟨[], []⟩ 0 0 "T" "T"
    (by decide) (by decide)
    (fun r hr => absurd hr (List.not_mem_nil r))
    (fun r hr => absurd hr (List.not_mem_nil r))

/-- **C2** (amended). As stated the claim fails: the cutoff instant keeps
the request's time of day, so the record dated exactly `today - days`
(UTC midnight of that day) is included iff the request instant is exactly
midnight; a record dated `today - days + 1` or later is always included
and one dated `today - days - 1` or earlier is always excluded. -/
theorem window_boundary_of_cutoff_time
    (days : Nat) (nowMs : Int) (col : List ProdRecord) (r : ProdRecord)
    (k : Int) (hr : r ∈ col) (hk : parseISODate r.date = some k) :
    (k = nowMs / msPerDay - days →
      (r ∈ productionDaily days nowMs col ↔
        nowMs = (nowMs / msPerDay) * msPerDay)) ∧
    (k ≤ nowMs / msPerDay - days - 1 →
      r ∉ productionDaily days nowMs col) ∧
    (nowMs / msPerDay - days + 1 ≤ k →
      r ∈ productionDaily days nowMs col) := by
  have h1 : msPerDay * (nowMs / msPerDay) + nowMs % msPerDay = nowMs :=
    Int.ediv_add_emod _ _
  have h2 : 0 ≤ nowMs % msPerDay := Int.emod_nonneg _ (by norm_num [msPerDay])
  have h3 : nowMs % msPerDay < msPerDay :=
    Int.emod_lt_of_pos _ (by norm_num [msPerDay])
  have hmem : r ∈ productionDaily days nowMs col ↔
      cutoffMs nowMs days ≤ k * msPerDay := by
    unfold productionDaily inWindow
    rw [List.mem_filter, hk]
    simp [hr, ge_iff_le]
  refine ⟨?_, ?_, ?_⟩
  · intro hkd
    subst hkd
    rw [hmem]
    unfold cutoffMs msPerDay at *
    constructor
    · intro h; omega
    · intro h; omega
  · intro hkd
    rw [hmem]
    unfold cutoffMs msPerDay at *
    omega
  · intro hkd
    rw [hmem]
    unfold cutoffMs msPerDay at *
    omega

/-- **C2** counterexample to the claim as stated: at a request instant of
noon UTC on day 19466 (2023-04-19), the record dated `today - 30`
(2023-03-20, epoch day 19436) is *excluded* from the 30-day window. -/
theorem window_boundary_counterexample :
    productionDaily 30 (19466 * 86400000 + 43200000)
      [{ id := 1, date := "2023-03-20", total_doses := 10, hourly := [],
         uploaded_at := "T" }] = [] ∧
    parseISODate "2023-03-20" = some (19466 - 30) ∧
    (19466 * 86400000 + 43200000) / msPerDay = 19466 :=
  ⟨by decide, by decide, by decide⟩

/-- **C2** witness: at a request instant of exactly midnight UTC the
boundary record is included. -/
theorem window_boundary_witness :
    ({ id := 1, date := "2023-03-20", total_doses := 10, hourly := [],
       uploaded_at := "T" } : ProdRecord) ∈
      productionDaily 30 (19466 * 86400000)
        [{ id := 1, date := "2023-03-20", total_doses := 10, hourly := [],
           uploaded_at := "T" }] := by
  have h := window_boundary_of_cutoff_time 30 (19466 * 86400000)
    [{ id := 1, date := "2023-03-20", total_doses := 10, hourly := [],
       uploaded_at := "T" }]
    { id := 1, date := "2023-03-20", total_doses := 10, hourly := [],
      uploaded_at := "T" } 19436 (List.mem_cons_self _ _) (by decide)
  exact (h.1 (by decide)).mpr (by decide)

/-- **C3**: during an ingest, an aggregate bucket whose natural key already
occurs in the collection replaces the first record with that key wholesale
while keeping its `id` and counts as `updated`; a bucket with an absent key
appends a record carrying the fresh identifier (the id counter, which is
then advanced) and counts as `added` — for both the date-keyed production
upsert and the location-keyed bypass upsert. -/
theorem upsert_replaces_or_appends
    (accP : ProdAcc) (accB : BypassAcc) (d : String) (loc : Cell)
    (tP tB : Int) (hP hB : List (HKey × Int)) (nwP nwB : String) :
    ((∀ r ∈ accP.col, r.date ≠ d) →
      prodUpsert accP d tP hP nwP =
        { accP with
          col := accP.col ++ [{ id := accP.nextId, date := d, total_doses := tP,
                                hourly := hP, uploaded_at := nwP }],
          nextId := accP.nextId + 1, added := accP.added + 1 }) ∧
    (∀ pre old post, accP.col = pre ++ old :: post →
      (∀ r ∈ pre, r.date ≠ d) → old.date = d →
      prodUpsert accP d tP hP nwP =
        { accP with
          col := pre ++ { id := old.id, date := d, total_doses := tP,
                          hourly := hP, uploaded_at := nwP } :: post,
          updated := accP.updated + 1 }) ∧
    ((∀ r ∈ accB.col, r.location ≠ loc) →
      bypassUpsert accB loc tB hB nwB =
        { accB with
          col := accB.col ++ [{ id := accB.nextId, location := loc,
                                total_bypasses := tB, hourly := hB,
                                uploaded_at := nwB }],
          nextId := accB.nextId + 1, added := accB.added + 1 }) ∧
    (∀ pre old post, accB.col = pre ++ old :: post →
      (∀ r ∈ pre, r.location ≠ loc) → old.location = loc →
      bypassUpsert accB loc tB hB nwB =
        { accB with
          col := pre ++ { id := old.id, location := loc, total_bypasses := tB,
                          hourly := hB, uploaded_at := nwB } :: post,
          updated := accB.updated + 1 }) := by
  refine ⟨?_, ?_, ?_, ?_⟩
  · intro hnone
    unfold prodUpsert
    rw [prodReplace_eq_none d tP hP nwP accP.col hnone]
  · intro pre old post hcol hpre hold
    unfold prodUpsert
    rw [hcol, prodReplace_split d tP hP nwP pre old post hpre hold]
  · intro hnone
    unfold bypassUpsert
    rw [bypassReplace_eq_none loc tB hB nwB accB.col hnone]
  · intro pre old post hcol hpre hold
    unfold bypassUpsert
    rw [hcol, bypassReplace_split loc tB hB nwB pre old post hpre hold]

/-- **C3** witness: the append branch on an empty collection and the
replace branch on a one-record collection, at concrete inputs. -/
theorem upsert_replaces_or_appends_witness :
    prodUpsert ⟨[], 5, 0, 0⟩ "2023-03-15" 12 [(some 8, 12)] "T" =
      ⟨[{ id := 5, date := "2023-03-15", total_doses := 12,
          hourly := [(some 8, 12)], uploaded_at := "T" }], 6, 1, 0⟩ ∧
    prodUpsert ⟨[⟨5, "2023-03-15", 0, [], "T0"⟩], 7, 0, 0⟩ "2023-03-15" 12
        [(some 8, 12)] "T" =
      ⟨[⟨5, "2023-03-15", 12, [(some 8, 12)], "T"⟩], 7, 0, 1⟩ := by
  constructor
  · exact (upsert_replaces_or_appends ⟨[], 5, 0, 0⟩ ⟨[], 0, 0, 0⟩ "2023-03-15"
      (Cell.str "x") 12 0 [(some 8, 12)] [] "T" "T").1
      (fun r hr => absurd hr (List.not_mem_nil r))
  · exact (upsert_replaces_or_appends ⟨[⟨5, "2023-03-15", 0, [], "T0"⟩], 7, 0, 0⟩
      ⟨[], 0, 0, 0⟩ "2023-03-15" (Cell.str "x") 12 0 [(some 8, 12)] [] "T" "T").2.1
      [] ⟨5, "2023-03-15", 0, [], "T0"⟩ [] rfl
      (fun r hr => absurd hr (List.not_mem_nil r)) rfl

/-- **C5**: a production (resp. bypass) upload whose header row's first
cell is not the string `"EntryDate"` (resp. `"Location"`) — including a
missing or empty header row — is rejected with the schema-mismatch message
naming the expectation, and neither the in-memory collection nor the
persisted collection changes. -/
theorem schema_sentinel_rejects_without_mutation
    (rawP rawB : List Row) (pst : ProdState) (bst : BypassState)
    (nP nB : Nat) (nowP nowB : String)
    (hP : getCell (rawP.headD []) 0 ≠ Cell.str "EntryDate")
    (hB : getCell (rawB.headD []) 0 ≠ Cell.str "Location") :
    (prodIngest rawP pst nP nowP).state = pst ∧
    (prodIngest rawP pst nP nowP).resp =
      .err "Invalid file format - expected EntryDate in first column" ∧
    (bypassIngest rawB bst nB nowB).state = bst ∧
    (bypassIngest rawB bst nB nowB).resp =
      .err "Invalid file format - expected Location in first column" := by
  refine ⟨?_, ?_, ?_, ?_⟩
  · cases rawP with
    | nil => rfl
    | cons header rows =>
      simp only [List.headD_cons] at hP
      simp [prodIngest, hP]
  · cases rawP with
    | nil => rfl
    | cons header rows =>
      simp only [List.headD_cons] at hP
      simp [prodIngest, hP]
  · cases rawB with
    | nil => rfl
    | cons header rows =>
      simp only [List.headD_cons] at hB
      simp [bypassIngest, hB]
  · cases rawB with
    | nil => rfl
    | cons header rows =>
      simp only [List.headD_cons] at hB
      simp [bypassIngest, hB]

/-- **C5** witness: concrete uploads with a wrong first header cell. -/
theorem schema_sentinel_rejects_without_mutation_witness :
    (prodIngest [[Cell.str "Date", Cell.str "8:00"], [Cell.num 45000, Cell.num 5]]
      ⟨[], []⟩ 3 "T").state = ⟨[], []⟩ ∧
    (prodIngest [[Cell.str "Date", Cell.str "8:00"], [Cell.num 45000, Cell.num 5]]
      ⟨[], []⟩ 3 "T").resp =
      .err "Invalid file format - expected EntryDate in first column" ∧
    (bypassIngest [[Cell.num 7]] ⟨[], []⟩ 3 "T").state = ⟨[], []⟩ ∧
    (bypassIngest [[Cell.num 7]] ⟨[], []⟩ 3 "T").resp =
      .err "Invalid file format - expected Location in first column" :=
  schema_sentinel_rejects_without_mutation
    [[Cell.str "Date", Cell.str "8:00"], [Cell.num 45000, Cell.num 5]]
    [[Cell.num 7]] ⟨[], []⟩ ⟨[], []⟩ 3 3 "T" "T" (by decide) (by decide)

/-! ## Turnaround: the single upload-day bucket -/

theorem turnReplace_eq_none_iff (d : String) (b : TBucket) (now : String)
    (col : List TurnRecord) :
    turnReplace d b now col = none ↔ ∀ r ∈ col, r.date ≠ d := by
  induction col with
  | nil => simp [turnReplace]
  | cons r rs ih =>
    by_cases h : r.date = d
    · simp [turnReplace, h]
    · simp [turnReplace, h, Option.map_eq_none', ih]

theorem turnReplace_some_spec (d : String) (b : TBucket) (now : String)
    (col col' : List TurnRecord) (h : turnReplace d b now col = some col') :
    ∃ old ∈ col, old.date = d ∧ mkTurnRecord old.id d b now ∈ col' := by
  induction col generalizing col' with
  | nil => simp [turnReplace] at h
  | cons r rs ih =>
    by_cases hd : r.date = d
    · simp only [turnReplace, if_pos hd, Option.some.injEq] at h
      subst h
      exact ⟨r, List.mem_cons_self r rs, hd, List.mem_cons_self _ _⟩
    · simp only [turnReplace, if_neg hd] at h
      cases hrec : turnReplace d b now rs with
      | none => rw [hrec] at h; simp at h
      | some col'' =>
        rw [hrec] at h
        simp only [Option.map_some', Option.some.injEq] at h
        subst h
        obtain ⟨old, hmem, hdate, hnew⟩ := ih col'' hrec
        exact ⟨old, List.mem_cons_of_mem r hmem, hdate,
          List.mem_cons_of_mem r hnew⟩

theorem mem_turnReplace (d : String) (b : TBucket) (now : String)
    (col col' : List TurnRecord) (h : turnReplace d b now col = some col')
    (r : TurnRecord) (hr : r ∈ col') : r ∈ col ∨ r.date = d := by
  induction col generalizing col' with
  | nil => simp [turnReplace] at h
  | cons r0 rs ih =>
    by_cases hd : r0.date = d
    · simp only [turnReplace, if_pos hd, Option.some.injEq] at h
      subst h
      rcases List.mem_cons.mp hr with h1 | h1
      · right; rw [h1]; rfl
      · left; exact List.mem_cons_of_mem r0 h1
    · simp only [turnReplace, if_neg hd] at h
      cases hrec : turnReplace d b now rs with
      | none => rw [hrec] at h; simp at h
      | some col'' =>
        rw [hrec] at h
        simp only [Option.map_some', Option.some.injEq] at h
        subst h
        rcases List.mem_cons.mp hr with h1 | h1
        · left; rw [h1]; exact List.mem_cons_self r0 rs
        · rcases ih col'' hrec h1 with h2 | h2
          · left; exact List.mem_cons_of_mem r0 h2
          · right; exact h2

theorem turnRowStep_byDate (ci : TCols) (todayStr : String) (acc : TurnAcc)
    (row : Row) (acc' : TurnAcc)
    (h : turnRowStep ci todayStr acc row = .ok acc') :
    acc'.byDate = acc.byDate ∨
      ∃ f, acc'.byDate = aupd acc.byDate todayStr emptyTBucket f := by
  unfold turnRowStep at h
  split at h
  · cases h; left; rfl
  · split at h
    · cases h
    · dsimp only at h
      split at h
      · cases h; left; rfl
      · cases h
        right
        exact ⟨_, rfl⟩

theorem turnLoop_byDate_shape (ci : TCols) (todayStr : String)
    (rows : List Row) (acc acc' : TurnAcc)
    (h : turnLoop ci todayStr rows acc = .ok acc')
    (hacc : acc.byDate = [] ∨ ∃ b, acc.byDate = [(todayStr, b)]) :
    acc'.byDate = [] ∨ ∃ b, acc'.byDate = [(todayStr, b)] := by
  induction rows generalizing acc with
  | nil =>
    simp only [turnLoop, Except.ok.injEq] at h
    rw [← h]
    exact hacc
  | cons row rest ih =>
    simp only [turnLoop] at h
    cases hstep : turnRowStep ci todayStr acc row with
    | error e => rw [hstep] at h; cases h
    | ok acc1 =>
      rw [hstep] at h
      apply ih acc1 h
      rcases turnRowStep_byDate ci todayStr acc row acc1 hstep with h1 | ⟨f, h1⟩
      · rw [h1]; exact hacc
      · rw [h1]
        rcases hacc with h2 | ⟨b, h2⟩
        · rw [h2]; right; exact ⟨f emptyTBucket, rfl⟩
        · rw [h2]; right; exact ⟨f b, by simp [aupd]⟩

/-- **C6**: the turnaround ingest reads no per-row date — every
contributing row is aggregated under the single upload-day key — so an
upload adds or updates at most one record, every record it touches is
keyed by the upload day, an `added` outcome means no stored record had the
upload-day key, and an `updated` outcome overwrites the upload-day record
while preserving its identifier. A failed upload leaves the state
untouched. -/
theorem turnaround_single_today_bucket
    (raw : List Row) (st : TurnState) (nextId : Nat) (todayStr now : String) :
    (∀ e, (turnIngest raw st nextId todayStr now).resp = .err e →
      (turnIngest raw st nextId todayStr now).state = st) ∧
    (∀ a u t, (turnIngest raw st nextId todayStr now).resp = .ok a u t →
      a + u ≤ 1 ∧
      (∀ r ∈ (turnIngest raw st nextId todayStr now).state.mem,
        r ∈ st.mem ∨ r.date = todayStr) ∧
      (a = 1 → ∀ old ∈ st.mem, old.date ≠ todayStr) ∧
      (u = 1 → ∃ old ∈ st.mem, old.date = todayStr ∧
        ∃ rec ∈ (turnIngest raw st nextId todayStr now).state.mem,
          rec.id = old.id ∧ rec.date = todayStr)) := by
  cases raw with
  | nil =>
    refine ⟨fun e _ => rfl, fun a u t h => ?_⟩
    cases h
  | cons header rows =>
    cases hloop : turnLoop (turnCols header) todayStr rows ⟨[], 0⟩ with
    | error e =>
      refine ⟨fun e' _ => ?_, fun a u t h => ?_⟩
      · simp [turnIngest, hloop]
      · simp [turnIngest, hloop] at h
    | ok tacc =>
      have hshape := turnLoop_byDate_shape (turnCols header) todayStr rows
        ⟨[], 0⟩ tacc hloop (Or.inl rfl)
      refine ⟨fun e he => ?_, fun a u t h => ?_⟩
      · simp [turnIngest, hloop] at he
      · simp only [turnIngest, hloop] at h ⊢
        rcases hshape with hbd | ⟨b, hbd⟩
        · rw [hbd] at h ⊢
          simp only [turnSave, List.foldl_nil, TurnResp.ok.injEq] at h
          obtain ⟨ha, hu, _⟩ := h
          refine ⟨by omega, ?_, ?_, ?_⟩
          · intro r hr
            simp only [turnSave, List.foldl_nil] at hr
            left
            exact (mem_jsSort _ _ _).mp hr
          · intro ha1
            omega
          · intro hu1
            omega
        · rw [hbd] at h ⊢
          simp only [turnSave, List.foldl_cons, List.foldl_nil] at h ⊢
          unfold turnUpsert at h ⊢
          dsimp only at h ⊢
          cases hrep : turnReplace todayStr b now st.mem with
          | none =>
            rw [hrep] at h
            dsimp only at h ⊢
            simp only [TurnResp.ok.injEq] at h
            obtain ⟨ha, hu, _⟩ := h
            refine ⟨by omega, ?_, ?_, ?_⟩
            · intro r hr
              rw [mem_jsSort] at hr
              rcases List.mem_append.mp hr with h1 | h1
              · left; exact h1
              · right
                simp only [List.mem_singleton] at h1
                rw [h1]
                rfl
            · intro _ old hold hdate
              rw [turnReplace_eq_none_iff] at hrep
              exact hrep old hold hdate
            · intro hu1
              omega
          | some col' =>
            rw [hrep] at h
            dsimp only at h ⊢
            simp only [TurnResp.ok.injEq] at h
            obtain ⟨ha, hu, _⟩ := h
            refine ⟨by omega, ?_, ?_, ?_⟩
            · intro r hr
              rw [mem_jsSort] at hr
              exact mem_turnReplace todayStr b now st.mem col' hrep r hr
            · intro ha1
              omega
            · intro _
              obtain ⟨old, hold, hdate, hnew⟩ :=
                turnReplace_some_spec todayStr b now st.mem col' hrep
              exact ⟨old, hold, hdate, mkTurnRecord old.id todayStr b now,
                (mem_jsSort _ _ _).mpr hnew, rfl, rfl⟩

/-- **C6** witness: a concrete two-row turnaround upload collapses onto the
single upload-day record. -/
theorem turnaround_single_today_bucket_witness :
    (1 : Nat) + 0 ≤ 1 ∧
    (∀ r ∈ (turnIngest
        [[Cell.str "DoseID", Cell.str "DoseStatus", Cell.str "Priority",
          Cell.str "DoseDescription"],
         [Cell.str "D1", Cell.str "Sorted", Cell.num 10, Cell.str "DrugA 5mg"],
         [Cell.str "D2", Cell.str "Sorted", Cell.num 20, Cell.str "DrugB 1mg"]]
        ⟨[], []⟩ 0 "2024-01-02" "T").state.mem,
      r ∈ ([] : List TurnRecord) ∨ r.date = "2024-01-02") ∧
    ((1 : Nat) = 1 → ∀ old ∈ ([] : List TurnRecord), old.date ≠ "2024-01-02") ∧
    ((0 : Nat) = 1 → ∃ old ∈ ([] : List TurnRecord), old.date = "2024-01-02" ∧
      ∃ rec ∈ (turnIngest
        [[Cell.str "DoseID", Cell.str "DoseStatus", Cell.str "Priority",
          Cell.str "DoseDescription"],
         [Cell.str "D1", Cell.str "Sorted", Cell.num 10, Cell.str "DrugA 5mg"],
         [Cell.str "D2", Cell.str "Sorted", Cell.num 20, Cell.str "DrugB 1mg"]]
        ⟨[], []⟩ 0 "2024-01-02" "T").state.mem,
        rec.id = old.id ∧ rec.date = "2024-01-02") := by
  have h := (turnaround_single_today_bucket
    [[Cell.str "DoseID", Cell.str "DoseStatus", Cell.str "Priority",
      Cell.str "DoseDescription"],
     [Cell.str "D1", Cell.str "Sorted", Cell.num 10, Cell.str "DrugA 5mg"],
     [Cell.str "D2", Cell.str "Sorted", Cell.num 20, Cell.str "DrugB 1mg"]]
    ⟨[], []⟩ 0 "2024-01-02" "T").2 1 0 2 (by decide)
  exact ⟨h.1, h.2.1, h.2.2.1, h.2.2.2⟩

/-! ## The by-priority rollup -/

theorem sum_counts_addStats (m : List (Int × TStats)) (p : Int) (s : TStats) :
    ((avals (addStats m p s)).map (·.count)).sum =
      ((avals m).map (·.count)).sum + s.count := by
  unfold addStats
  induction m with
  | nil => simp [aupd, avals]
  | cons q rest ih =>
    by_cases h : q.1 = p
    · simp only [aupd, if_pos h, avals, List.map_cons, List.sum_cons]
      omega
    · simp only [aupd, if_neg h, avals, List.map_cons, List.sum_cons] at ih ⊢
      omega

theorem sum_counts_foldInner (bp : List (Int × TStats))
    (m : List (Int × TStats)) :
    ((avals (bp.foldl (fun m' p => addStats m' p.1 p.2) m)).map (·.count)).sum =
      ((avals m).map (·.count)).sum + ((avals bp).map (·.count)).sum := by
  induction bp generalizing m with
  | nil => simp [avals]
  | cons p rest ih =>
    simp only [List.foldl_cons]
    rw [ih]
    rw [sum_counts_addStats]
    simp only [avals, List.map_cons, List.sum_cons]
    omega

theorem sum_counts_rollupAux (recs : List TurnRecord)
    (m : List (Int × TStats)) :
    ((avals (recs.foldl (fun m' d =>
        d.by_priority.foldl (fun m'' p => addStats m'' p.1 p.2) m') m)).map
      (·.count)).sum =
      ((avals m).map (·.count)).sum +
      (recs.map (fun d => ((avals d.by_priority).map (·.count)).sum)).sum := by
  induction recs generalizing m with
  | nil => simp
  | cons d rest ih =>
    simp only [List.foldl_cons]
    rw [ih, sum_counts_foldInner]
    simp only [List.map_cons, List.sum_cons]
    omega

theorem addStats_keys_nodup (m : List (Int × TStats)) (p : Int) (s : TStats)
    (h : (m.map (·.1)).Nodup) : ((addStats m p s).map (·.1)).Nodup :=
  aupd_keys_nodup m p _ _ h

theorem foldInner_keys_nodup (bp : List (Int × TStats))
    (m : List (Int × TStats)) (h : (m.map (·.1)).Nodup) :
    ((bp.foldl (fun m' p => addStats m' p.1 p.2) m).map (·.1)).Nodup := by
  induction bp generalizing m with
  | nil => exact h
  | cons p rest ih =>
    simp only [List.foldl_cons]
    exact ih _ (addStats_keys_nodup m p.1 p.2 h)

theorem priorityRollup_keys_nodup (recs : List TurnRecord) :
    ((priorityRollup recs).map (·.1)).Nodup := by
  unfold priorityRollup
  suffices h : ∀ m : List (Int × TStats), (m.map (·.1)).Nodup →
      ((recs.foldl (fun m' d =>
        d.by_priority.foldl (fun m'' p => addStats m'' p.1 p.2) m') m).map
          (·.1)).Nodup by
    exact h [] (by simp)
  induction recs with
  | nil => intro m hm; exact hm
  | cons d rest ih =>
    intro m hm
    simp only [List.foldl_cons]
    exact ih _ (foldInner_keys_nodup d.by_priority m hm)

/-- **C7**: the by-priority rollup sums `count` and `total_time` per
priority across all window-filtered records — so (given the
ingest-established invariant that a stored record's `by_priority` counts
sum to its `total_doses`) the rollup's counts sum to the filtered records'
`total_doses` sum; each entry reports `avg_turnaround` as
`total_time/count` rounded to one decimal with `0` for an empty count; and
the result is sorted ascending by numeric priority. -/
theorem by_priority_rollup_spec
    (days : Nat) (nowMs : Int) (col : List TurnRecord)
    (hinv : ∀ r ∈ col,
      ((avals r.by_priority).map (·.count)).sum = r.total_doses) :
    (((byPriorityQuery days nowMs col).map (·.count)).sum =
      ((col.filter (fun d => inWindow nowMs days d.date)).map
        (·.total_doses)).sum) ∧
    (∀ e ∈ byPriorityQuery days nowMs col,
      ∃ s, aget (priorityRollup
          (col.filter (fun d => inWindow nowMs days d.date))) e.priority =
            some s ∧
        e.count = s.count ∧
        e.avg_turnaround =
          (if 0 < s.count then round1 (s.total_time / s.count) else 0)) ∧
    (byPriorityQuery days nowMs col).Pairwise
      (fun a b => a.priority ≤ b.priority) := by
  refine ⟨?_, ?_, ?_⟩
  · unfold byPriorityQuery
    have hperm := (jsSort_perm (fun a b => decide (a.priority ≤ b.priority))
      (((priorityRollup (col.filter (fun d => inWindow nowMs days d.date))).map
        (fun p =>
          { priority := p.1,
            priority_label := getPriorityLabel p.1,
            count := p.2.count,
            avg_turnaround :=
              if 0 < p.2.count then round1 (p.2.total_time / p.2.count) else 0
            : PriorityEntry }))))
    rw [(hperm.map (·.count)).sum_eq]
    rw [List.map_map]
    have h1 : ((priorityRollup
        (col.filter (fun d => inWindow nowMs days d.date))).map
          ((·.count) ∘ (fun p : Int × TStats =>
            { priority := p.1,
              priority_label := getPriorityLabel p.1,
              count := p.2.count,
              avg_turnaround :=
                if 0 < p.2.count then round1 (p.2.total_time / p.2.count)
                else 0
              : PriorityEntry }))) =
        ((avals (priorityRollup
          (col.filter (fun d => inWindow nowMs days d.date)))).map
            (·.count)) := by
      simp [avals, List.map_map]
    rw [h1]
    unfold priorityRollup
    rw [sum_counts_rollupAux]
    simp only [avals, List.map_nil, List.sum_nil, Nat.zero_add]
    apply congrArg
    apply List.map_congr_left
    intro r hr
    exact hinv r (List.mem_filter.mp hr).1
  · intro e he
    unfold byPriorityQuery at he
    rw [mem_jsSort] at he
    obtain ⟨p, hp, hpe⟩ := List.mem_map.mp he
    refine ⟨p.2, ?_, ?_, ?_⟩
    · rw [← hpe]
      exact mem_of_nodup_aget _ p (priorityRollup_keys_nodup _) hp
    · rw [← hpe]
    · rw [← hpe]
  · unfold byPriorityQuery
    have h := sorted_jsSort (fun a b : PriorityEntry =>
        decide (a.priority ≤ b.priority))
      (fun a b c hab hbc => by
        simp only [decide_eq_true_eq] at *
        omega)
      (fun a b => by
        simp only [decide_eq_true_eq]
        omega)
      (((priorityRollup (col.filter (fun d => inWindow nowMs days d.date))).map
        (fun p =>
          { priority := p.1,
            priority_label := getPriorityLabel p.1,
            count := p.2.count,
            avg_turnaround :=
              if 0 < p.2.count then round1 (p.2.total_time / p.2.count) else 0
            : PriorityEntry })))
    exact h.imp (fun hab => by simpa using hab)

/-- **C7** witness: a single in-window record with two priority buckets. -/
theorem by_priority_rollup_spec_witness :
    (((byPriorityQuery 30 (19436 * 86400000)
        [⟨1, "2023-03-20", 3, 0, [(20, ⟨1, 10⟩), (10, ⟨2, 30⟩)], [], [], "T"⟩]).map
        (·.count)).sum =
      (([(⟨1, "2023-03-20", 3, 0, [(20, ⟨1, 10⟩), (10, ⟨2, 30⟩)], [], [], "T"⟩
          : TurnRecord)].filter
          (fun d => inWindow (19436 * 86400000) 30 d.date)).map
        (·.total_doses)).sum) ∧
    (byPriorityQuery 30 (19436 * 86400000)
      [⟨1, "2023-03-20", 3, 0, [(20, ⟨1, 10⟩), (10, ⟨2, 30⟩)], [], [], "T"⟩]).Pairwise
      (fun a b => a.priority ≤ b.priority) := by
  have h := by_priority_rollup_spec 30 (19436 * 86400000)
    [⟨1, "2023-03-20", 3, 0, [(20, ⟨1, 10⟩), (10, ⟨2, 30⟩)], [], [], "T"⟩]
    (by intro r hr; simp only [List.mem_singleton] at hr; rw [hr]; decide)
  exact ⟨h.1, h.2.2⟩

/-! ## Stock-doses classification -/

theorem cellString_ok_iff (c : Cell) (s : String) :
    cellString c = .ok s ↔ c = Cell.str s := by
  cases c <;> simp [cellString]

theorem stockRowStep_cases (acc : StockAcc) (row : JRow) (acc' : StockAcc)
    (h : stockRowStep acc row = .ok acc') :
    (¬(doseOf row).truthy ∧ acc' = acc) ∨
    (∃ s, doseOf row = Cell.str s ∧ s ≠ "" ∧
      ((upperStarts s "DILUTION:" ∧
        acc'.stocks = acc.stocks ∧ acc'.stocksCount = acc.stocksCount ∧
        acc'.dilutions =
          acc.dilutions ++ [stockRecOf s (jsParseIntD0 (jget row "Total"))] ∧
        acc'.dilutionsCount = acc.dilutionsCount + 1) ∨
      (¬upperStarts s "DILUTION:" ∧
        acc'.stocks =
          acc.stocks ++ [stockRecOf s (jsParseIntD0 (jget row "Total"))] ∧
        acc'.stocksCount = acc.stocksCount + 1 ∧
        acc'.dilutions = acc.dilutions ∧
        acc'.dilutionsCount = acc.dilutionsCount))) := by
  unfold stockRowStep at h
  dsimp only at h
  split at h
  · cases h
    left
    constructor
    · simpa using (by assumption : ¬(doseOf row).truthy = true)
    · rfl
  · rename_i htruthy
    right
    split at h
    · cases h
    · rename_i s hs
      rw [cellString_ok_iff] at hs
      refine ⟨s, hs, ?_, ?_⟩
      · intro hempty
        rw [hs, hempty] at htruthy
        simp [Cell.truthy] at htruthy
      · split at h
        · cases h
          left
          rename_i hdil
          exact ⟨hdil, rfl, rfl, rfl, rfl⟩
        · cases h
          right
          rename_i hdil
          exact ⟨hdil, rfl, rfl, rfl, rfl⟩

theorem stockLoop_counts (rows : List JRow) (acc acc' : StockAcc)
    (h : stockLoop rows acc = .ok acc') :
    acc'.stocks.length + acc'.dilutions.length =
      acc.stocks.length + acc.dilutions.length +
        (rows.filter (fun r => (doseOf r).truthy)).length ∧
    (acc.stocksCount = acc.stocks.length →
      acc'.stocksCount = acc'.stocks.length) ∧
    (acc.dilutionsCount = acc.dilutions.length →
      acc'.dilutionsCount = acc'.dilutions.length) := by
  induction rows generalizing acc with
  | nil =>
    simp only [stockLoop, Except.ok.injEq] at h
    subst h
    simp
  | cons row rest ih =>
    simp only [stockLoop] at h
    cases hstep : stockRowStep acc row with
    | error e => rw [hstep] at h; cases h
    | ok acc1 =>
      rw [hstep] at h
      obtain ⟨hlen, hsc, hdc⟩ := ih acc1 h
      rcases stockRowStep_cases acc row acc1 hstep with ⟨htr, heq⟩ | ⟨s, hs, hne, hcase⟩
      · subst heq
        simp only [List.filter_cons]
        rw [if_neg (by simpa using htr)]
        exact ⟨hlen, hsc, hdc⟩
      · have htr : (doseOf row).truthy := by
          rw [hs]
          simp [Cell.truthy, hne]
        simp only [List.filter_cons, if_pos htr, List.length_cons]
        rcases hcase with ⟨_, h1, h2, h3, h4⟩ | ⟨_, h1, h2, h3, h4⟩
        · refine ⟨?_, ?_, ?_⟩
          · rw [h1, h3] at hlen
            simp only [List.length_append, List.length_singleton] at hlen
            omega
          · intro he; exact hsc (by rw [h2, h1, he])
          · intro he
            apply hdc
            rw [h4, h3, he]
            simp
        · refine ⟨?_, ?_, ?_⟩
          · rw [h1, h3] at hlen
            simp only [List.length_append, List.length_singleton] at hlen
            omega
          · intro he
            apply hsc
            rw [h2, h1, he]
            simp
          · intro he; exact hdc (by rw [h4, h3, he])

theorem stockLoop_preds (rows : List JRow) (acc acc' : StockAcc)
    (h : stockLoop rows acc = .ok acc')
    (hst : ∀ rec ∈ acc.stocks, ¬upperStarts rec.original "DILUTION:" ∧
      rec.type = (if upperStarts rec.original "STOCK:" then "Stock" else "Other"))
    (hdl : ∀ rec ∈ acc.dilutions, upperStarts rec.original "DILUTION:" ∧
      rec.type = "Dilution") :
    (∀ rec ∈ acc'.stocks, ¬upperStarts rec.original "DILUTION:" ∧
      rec.type =
        (if upperStarts rec.original "STOCK:" then "Stock" else "Other")) ∧
    (∀ rec ∈ acc'.dilutions, upperStarts rec.original "DILUTION:" ∧
      rec.type = "Dilution") := by
  induction rows generalizing acc with
  | nil =>
    simp only [stockLoop, Except.ok.injEq] at h
    subst h
    exact ⟨hst, hdl⟩
  | cons row rest ih =>
    simp only [stockLoop] at h
    cases hstep : stockRowStep acc row with
    | error e => rw [hstep] at h; cases h
    | ok acc1 =>
      rw [hstep] at h
      rcases stockRowStep_cases acc row acc1 hstep with ⟨_, heq⟩ | ⟨s, _, _, hcase⟩
      · subst heq
        exact ih acc1 h hst hdl
      · rcases hcase with ⟨hdil, h1, _, h3, _⟩ | ⟨hdil, h1, _, h3, _⟩
        · apply ih acc1 h
          · rw [h1]; exact hst
          · rw [h3]
            intro rec hrec
            rcases List.mem_append.mp hrec with h5 | h5
            · exact hdl rec h5
            · simp only [List.mem_singleton] at h5
              subst h5
              exact ⟨hdil, by simp [stockRecOf, hdil]⟩
        · apply ih acc1 h
          · rw [h1]
            intro rec hrec
            rcases List.mem_append.mp hrec with h5 | h5
            · exact hst rec h5
            · simp only [List.mem_singleton] at h5
              subst h5
              exact ⟨hdil, by simp [stockRecOf, hdil]⟩
          · rw [h3]; exact hdl

theorem stockLoop_stocks_mono (rows : List JRow) (acc acc' : StockAcc)
    (h : stockLoop rows acc = .ok acc') (rec : StockRecord)
    (hrec : rec ∈ acc.stocks) : rec ∈ acc'.stocks := by
  induction rows generalizing acc with
  | nil =>
    simp only [stockLoop, Except.ok.injEq] at h
    subst h
    exact hrec
  | cons row rest ih =>
    simp only [stockLoop] at h
    cases hstep : stockRowStep acc row with
    | error e => rw [hstep] at h; cases h
    | ok acc1 =>
      rw [hstep] at h
      apply ih acc1 h
      rcases stockRowStep_cases acc row acc1 hstep with ⟨_, heq⟩ | ⟨s, _, _, hcase⟩
      · subst heq; exact hrec
      · rcases hcase with ⟨_, h1, _⟩ | ⟨_, h1, _⟩
        · rw [h1]; exact hrec
        · rw [h1]; exact List.mem_append_left _ hrec

theorem stockLoop_classifies (rows : List JRow) (acc acc' : StockAcc)
    (h : stockLoop rows acc = .ok acc') (row : JRow) (hrow : row ∈ rows)
    (s : String) (hs : doseOf row = Cell.str s) (hne : s ≠ "")
    (hdil : ¬upperStarts s "DILUTION:") :
    ∃ rec ∈ acc'.stocks, rec.original = s ∧
      rec.type = (if upperStarts s "STOCK:" then "Stock" else "Other") := by
  induction rows generalizing acc with
  | nil => cases hrow
  | cons row0 rest ih =>
    simp only [stockLoop] at h
    cases hstep : stockRowStep acc row0 with
    | error e => rw [hstep] at h; cases h
    | ok acc1 =>
      rw [hstep] at h
      rcases List.mem_cons.mp hrow with heq | hmem
      · subst heq
        rcases stockRowStep_cases acc row acc1 hstep with ⟨htr, _⟩ | ⟨s', hs', _, hcase⟩
        · rw [hs] at htr
          simp [Cell.truthy, hne] at htr
        · rw [hs] at hs'
          have hss : s' = s := by
            have := hs'.symm
            simpa [Cell.str.injEq] using this
          rw [hss] at hcase
          rcases hcase with ⟨hdil', _⟩ | ⟨_, h1, _⟩
          · exact absurd hdil' hdil
          · refine ⟨stockRecOf s (jsParseIntD0 (jget row "Total")), ?_, rfl, ?_⟩
            · apply stockLoop_stocks_mono rest acc1 acc' h
              rw [h1]
              exact List.mem_append_right _ (List.mem_singleton.mpr rfl)
            · simp [stockRecOf, hdil]
      · exact ih acc1 h hmem

/-- **C9** (amended). As stated the claim fails: a row whose `Dose` value
is the empty string starts with neither tag yet is skipped entirely
(`if (!dose) return`). Amended: every row whose dose value is a *non-empty*
string not starting with `DILUTION:` (case-insensitive) lands in the
stocks list — with type `"Other"` when it does not start with `STOCK:` —
and is counted in `total_stock_types`; only `DILUTION:`-prefixed rows go
to the dilutions list; and the two lists together classify exactly the
rows with a truthy dose value. -/
theorem stock_doses_classification
    (raw : List JRow) (old : StockDosesDoc) (now : String) (acc : StockAcc)
    (h : stockLoop raw ⟨[], [], 0, 0, 0⟩ = .ok acc) :
    ((stockDosesIngest raw old now).1.stocks.length +
        (stockDosesIngest raw old now).1.dilutions.length =
      (raw.filter (fun r => (doseOf r).truthy)).length) ∧
    ((stockDosesIngest raw old now).1.total_stock_types =
      (stockDosesIngest raw old now).1.stocks.length) ∧
    (∀ rec ∈ (stockDosesIngest raw old now).1.dilutions,
      upperStarts rec.original "DILUTION:" ∧ rec.type = "Dilution") ∧
    (∀ rec ∈ (stockDosesIngest raw old now).1.stocks,
      ¬upperStarts rec.original "DILUTION:" ∧
      rec.type =
        (if upperStarts rec.original "STOCK:" then "Stock" else "Other")) ∧
    (∀ row ∈ raw, ∀ s, doseOf row = Cell.str s → s ≠ "" →
      ¬upperStarts s "DILUTION:" →
      ∃ rec ∈ (stockDosesIngest raw old now).1.stocks, rec.original = s ∧
        rec.type = (if upperStarts s "STOCK:" then "Stock" else "Other")) := by
  have hcounts := stockLoop_counts raw ⟨[], [], 0, 0, 0⟩ acc h
  have hpreds := stockLoop_preds raw ⟨[], [], 0, 0, 0⟩ acc h
    (by intro rec hrec; cases hrec) (by intro rec hrec; cases hrec)
  unfold stockDosesIngest
  rw [h]
  dsimp only
  refine ⟨?_, ?_, ?_, ?_, ?_⟩
  · rw [length_jsSort, length_jsSort]
    simpa using hcounts.1
  · rw [length_jsSort]
    exact hcounts.2.1 rfl
  · intro rec hrec
    rw [mem_jsSort] at hrec
    exact hpreds.2 rec hrec
  · intro rec hrec
    rw [mem_jsSort] at hrec
    exact hpreds.1 rec hrec
  · intro row hrow s hs hne hdil
    obtain ⟨rec, hrec, hor, hty⟩ :=
      stockLoop_classifies raw ⟨[], [], 0, 0, 0⟩ acc h row hrow s hs hne hdil
    exact ⟨rec, (mem_jsSort _ _ _).mpr hrec, hor, hty⟩

/-- **C9** counterexample to the claim as stated: a row whose `Dose` string
is `""` starts with neither `DILUTION:` nor `STOCK:` yet is not placed in
the stocks list and not counted — it is dropped from the classification. -/
theorem stock_doses_classification_counterexample :
    (stockDosesIngest [[("Dose", Cell.str ""), ("Total", Cell.num 5)]]
      ⟨[], [], [], 0, 0, 0, ""⟩ "T").1.stocks = [] ∧
    (stockDosesIngest [[("Dose", Cell.str ""), ("Total", Cell.num 5)]]
      ⟨[], [], [], 0, 0, 0, ""⟩ "T").1.total_stock_types = 0 ∧
    ¬upperStarts "" "DILUTION:" ∧ ¬upperStarts "" "STOCK:" := by
  refine ⟨by decide, by decide, by decide, by decide⟩

/-- **C9** witness: a dilution row, a stock row and an untagged row are all
classified; the untagged one lands in stocks with type `"Other"`. -/
theorem stock_doses_classification_witness :
    ((stockDosesIngest
        [[("Dose", Cell.str "DILUTION: A 25ML"), ("Total", Cell.num 2)],
         [("Dose", Cell.str "STOCK: B 10ML"), ("Total", Cell.num 3)],
         [("Dose", Cell.str "plain C"), ("Total", Cell.num 4)]]
        ⟨[], [], [], 0, 0, 0, ""⟩ "T").1.stocks.length +
      (stockDosesIngest
        [[("Dose", Cell.str "DILUTION: A 25ML"), ("Total", Cell.num 2)],
         [("Dose", Cell.str "STOCK: B 10ML"), ("Total", Cell.num 3)],
         [("Dose", Cell.str "plain C"), ("Total", Cell.num 4)]]
        ⟨[], [], [], 0, 0, 0, ""⟩ "T").1.dilutions.length = 3) ∧
    (∃ rec ∈ (stockDosesIngest
        [[("Dose", Cell.str "DILUTION: A 25ML"), ("Total", Cell.num 2)],
         [("Dose", Cell.str "STOCK: B 10ML"), ("Total", Cell.num 3)],
         [("Dose", Cell.str "plain C"), ("Total", Cell.num 4)]]
        ⟨[], [], [], 0, 0, 0, ""⟩ "T").1.stocks,
      rec.original = "plain C" ∧
      rec.type = (if upperStarts "plain C" "STOCK:" then "Stock" else "Other")) := by
  have h := stock_doses_classification
    [[("Dose", Cell.str "DILUTION: A 25ML"), ("Total", Cell.num 2)],
     [("Dose", Cell.str "STOCK: B 10ML"), ("Total", Cell.num 3)],
     [("Dose", Cell.str "plain C"), ("Total", Cell.num 4)]]
    ⟨[], [], [], 0, 0, 0, ""⟩ "T"
    ⟨[⟨"B 10ML", "STOCK: B 10ML", 3, "10ML", "Stock"⟩,
      ⟨"plain C", "plain C", 4, "", "Other"⟩],
     [⟨"A 25ML", "DILUTION: A 25ML", 2, "25ML", "Dilution"⟩], 2, 1, 9⟩
    (by rfl)
  refine ⟨by rw [h.1]; decide, ?_⟩
  exact h.2.2.2.2 [("Dose", Cell.str "plain C"), ("Total", Cell.num 4)]
    (by decide) "plain C" (by decide) (by decide) (by decide)

/-! ## The truncated-location-key aggregation -/

theorem addT_zero_right (a : ℚ × ℚ × Nat) : addT a (0, 0, 0) = a := by
  simp [addT]

theorem addT_assoc (a b c : ℚ × ℚ × Nat) :
    addT (addT a b) c = addT a (addT b c) := by
  simp [addT, add_assoc]

theorem mem_aupd {κ α : Type} [DecidableEq κ] (m : List (κ × α)) (k : κ)
    (init : α) (f : α → α) (p : κ × α) (hp : p ∈ aupd m k init f) :
    p ∈ m ∨ (p.1 = k ∧ ∃ v, p.2 = f v ∧ (v = init ∨ (k, v) ∈ m)) := by
  induction m with
  | nil =>
    simp only [aupd, List.mem_singleton] at hp
    right
    rw [hp]
    exact ⟨rfl, init, rfl, Or.inl rfl⟩
  | cons q rest ih =>
    by_cases hq : q.1 = k
    · simp only [aupd, if_pos hq] at hp
      rcases List.mem_cons.mp hp with h1 | h1
      · right
        rw [h1]
        exact ⟨hq, q.2, rfl, Or.inr (by rw [← hq]; exact List.mem_cons_self q rest)⟩
      · left; exact List.mem_cons_of_mem q h1
    · simp only [aupd, if_neg hq] at hp
      rcases List.mem_cons.mp hp with h1 | h1
      · left; rw [h1]; exact List.mem_cons_self q rest
      · rcases ih h1 with h2 | ⟨h2, v, h3, h4⟩
        · left; exact List.mem_cons_of_mem q h2
        · right
          refine ⟨h2, v, h3, ?_⟩
          rcases h4 with h4 | h4
          · exact Or.inl h4
          · exact Or.inr (List.mem_cons_of_mem q h4)

theorem usageRowStep_locStats (ci : UCols) (acc : UsageAcc) (row : Row)
    (acc' : UsageAcc) (h : usageRowStep ci acc row = .ok acc') (d k : String) :
    locStats acc'.byDate d k =
      addT (locStats acc.byDate d k) (usageRowLoc ci row d k) := by
  unfold usageRowStep at h
  unfold usageRowLoc
  cases hinfo : usageRowInfo ci row with
  | skip =>
    rw [hinfo] at h
    cases h
    rw [addT_zero_right]
  | nodate =>
    rw [hinfo] at h
    cases h
    rw [addT_zero_right]
  | throw e => rw [hinfo] at h; cases h
  | contrib date pn ndc tv used waste lk =>
    rw [hinfo] at h
    cases h
    dsimp only
    by_cases hd : date = d
    · subst hd
      unfold locStats
      rw [aget_aupd_self]
      by_cases hk : lk = k
      · subst hk
        rw [if_pos ⟨rfl, rfl⟩]
        cases hb : aget acc.byDate date with
        | none =>
          simp only [hb, Option.getD_some, Option.getD_none]
          rw [aget_aupd_self]
          simp [emptyUBucket, aget, bumpLStats, addT]
        | some b =>
          simp only [hb, Option.getD_some]
          rw [aget_aupd_self]
          cases hl : aget b.by_location lk with
          | none => simp [hl, bumpLStats, addT]
          | some l => simp [hl, bumpLStats, addT]
      · rw [if_neg (fun hc => hk hc.2)]
        cases hb : aget acc.byDate date with
        | none =>
          simp only [hb, Option.getD_none]
          rw [aget_aupd_ne _ _ _ _ k (Ne.symm hk)]
          simp [emptyUBucket, aget, addT]
        | some b =>
          simp only [hb, Option.getD_some]
          rw [aget_aupd_ne _ _ _ _ k (Ne.symm hk)]
          cases hl : aget b.by_location k with
          | none => simp [hl, addT]
          | some l => simp [hl, addT]
    · rw [if_neg (fun hc => hd hc.1)]
      unfold locStats
      rw [aget_aupd_ne _ _ _ _ d (Ne.symm hd)]
      rw [addT_zero_right]

theorem usageLoop_locStats (ci : UCols) (rows : List Row) :
    ∀ (acc acc' : UsageAcc), usageLoop ci rows acc = .ok acc' →
    ∀ d k, locStats acc'.byDate d k =
      addT (locStats acc.byDate d k) (sumRowLoc ci rows d k) := by
  induction rows with
  | nil =>
    intro acc acc' h d k
    simp only [usageLoop, Except.ok.injEq] at h
    subst h
    rw [sumRowLoc, List.foldr_nil, addT_zero_right]
  | cons row rest ih =>
    intro acc acc' h d k
    simp only [usageLoop] at h
    cases hstep : usageRowStep ci acc row with
    | error e => rw [hstep] at h; cases h
    | ok acc1 =>
      rw [hstep] at h
      rw [ih acc1 acc' h d k, usageRowStep_locStats ci acc row acc1 hstep d k]
      simp only [sumRowLoc, List.foldr_cons]
      exact addT_assoc _ _ _

theorem usageRowStep_byDate_shape (ci : UCols) (acc : UsageAcc) (row : Row)
    (acc' : UsageAcc) (h : usageRowStep ci acc row = .ok acc') :
    acc'.byDate = acc.byDate ∨
      ∃ date f, acc'.byDate = aupd acc.byDate date emptyUBucket f ∧
        ∀ b : UBucket, ∃ lk i g, (f b).by_location = aupd b.by_location lk i g := by
  unfold usageRowStep at h
  cases hinfo : usageRowInfo ci row with
  | skip => rw [hinfo] at h; cases h; left; rfl
  | nodate => rw [hinfo] at h; cases h; left; rfl
  | throw e => rw [hinfo] at h; cases h
  | contrib date pn ndc tv used waste lk =>
    rw [hinfo] at h
    cases h
    right
    exact ⟨date, _, rfl, fun b => ⟨lk, ⟨0, 0, 0⟩, bumpLStats used waste, rfl⟩⟩

theorem usageLoop_nodup (ci : UCols) (rows : List Row) :
    ∀ (acc acc' : UsageAcc), usageLoop ci rows acc = .ok acc' →
    (acc.byDate.map (·.1)).Nodup →
    (∀ p ∈ acc.byDate, (p.2.by_location.map (·.1)).Nodup) →
    (acc'.byDate.map (·.1)).Nodup ∧
      ∀ p ∈ acc'.byDate, (p.2.by_location.map (·.1)).Nodup := by
  induction rows with
  | nil =>
    intro acc acc' h h1 h2
    simp only [usageLoop, Except.ok.injEq] at h
    subst h
    exact ⟨h1, h2⟩
  | cons row rest ih =>
    intro acc acc' h h1 h2
    simp only [usageLoop] at h
    cases hstep : usageRowStep ci acc row with
    | error e => rw [hstep] at h; cases h
    | ok acc1 =>
      rw [hstep] at h
      rcases usageRowStep_byDate_shape ci acc row acc1 hstep with hsh | ⟨date, f, hsh, hf⟩
      · exact ih acc1 acc' h (by rw [hsh]; exact h1) (by rw [hsh]; exact h2)
      · apply ih acc1 acc' h
        · rw [hsh]
          exact aupd_keys_nodup _ _ _ _ h1
        · rw [hsh]
          intro p hp
          rcases mem_aupd _ _ _ _ p hp with hpm | ⟨_, v, hv, hvm⟩
          · exact h2 p hpm
          · obtain ⟨lk, i, g, hbl⟩ := hf v
            rw [hv, hbl]
            apply aupd_keys_nodup
            rcases hvm with hvm | hvm
            · rw [hvm]; simp [emptyUBucket]
            · exact h2 (date, v) hvm

theorem addT_zero_left (a : ℚ × ℚ × Nat) : addT (0, 0, 0) a = a := by
  simp [addT]

theorem detailedRowStep_locStats (acc : DWAcc) (row : JRow) (acc' : DWAcc)
    (h : detailedRowStep acc row = .ok acc') (k : String) :
    dlocStats acc'.byLocation k =
      addT (dlocStats acc.byLocation k) (detailedRowLoc row k) := by
  unfold detailedRowStep at h
  unfold detailedRowLoc
  cases hinfo : detailedRowInfo row with
  | skip => rw [hinfo] at h; cases h; rw [addT_zero_right]
  | throw e => rw [hinfo] at h; cases h
  | contrib date pn ndc tv used waste imd ist lk =>
    rw [hinfo] at h
    cases h
    dsimp only
    by_cases hk : lk = k
    · subst hk
      unfold dlocStats
      rw [aget_aupd_self, if_pos rfl]
      cases hl : aget acc.byLocation lk with
      | none => simp [hl, addT]
      | some l => simp [hl, addT]
    · rw [if_neg hk]
      unfold dlocStats
      rw [aget_aupd_ne _ _ _ _ k (Ne.symm hk), addT_zero_right]

theorem detailedLoop_locStats (rows : List JRow) :
    ∀ (acc acc' : DWAcc), detailedLoop rows acc = .ok acc' →
    ∀ k, dlocStats acc'.byLocation k =
      addT (dlocStats acc.byLocation k) (sumRowDLoc rows k) := by
  induction rows with
  | nil =>
    intro acc acc' h k
    simp only [detailedLoop, Except.ok.injEq] at h
    subst h
    rw [sumRowDLoc, List.foldr_nil, addT_zero_right]
  | cons row rest ih =>
    intro acc acc' h k
    simp only [detailedLoop] at h
    cases hstep : detailedRowStep acc row with
    | error e => rw [hstep] at h; cases h
    | ok acc1 =>
      rw [hstep] at h
      rw [ih acc1 acc' h k, detailedRowStep_locStats acc row acc1 hstep k]
      simp only [sumRowDLoc, List.foldr_cons]
      exact addT_assoc _ _ _

theorem detailedRowStep_byLocation_shape (acc : DWAcc) (row : JRow)
    (acc' : DWAcc) (h : detailedRowStep acc row = .ok acc') :
    acc'.byLocation = acc.byLocation ∨
      ∃ lk i g, acc'.byLocation = aupd acc.byLocation lk i g := by
  unfold detailedRowStep at h
  cases hinfo : detailedRowInfo row with
  | skip => rw [hinfo] at h; cases h; left; rfl
  | throw e => rw [hinfo] at h; cases h
  | contrib date pn ndc tv used waste imd ist lk =>
    rw [hinfo] at h
    cases h
    right
    exact ⟨lk, ⟨0, 0, 0, 0⟩, _, rfl⟩

theorem detailedLoop_nodup (rows : List JRow) :
    ∀ (acc acc' : DWAcc), detailedLoop rows acc = .ok acc' →
    (acc.byLocation.map (·.1)).Nodup →
    (acc'.byLocation.map (·.1)).Nodup := by
  induction rows with
  | nil =>
    intro acc acc' h h1
    simp only [detailedLoop, Except.ok.injEq] at h
    subst h
    exact h1
  | cons row rest ih =>
    intro acc acc' h h1
    simp only [detailedLoop] at h
    cases hstep : detailedRowStep acc row with
    | error e => rw [hstep] at h; cases h
    | ok acc1 =>
      rw [hstep] at h
      rcases detailedRowStep_byLocation_shape acc row acc1 hstep with
        hsh | ⟨lk, i, g, hsh⟩
      · exact ih acc1 acc' h (by rw [hsh]; exact h1)
      · exact ih acc1 acc' h (by rw [hsh]; exact aupd_keys_nodup _ _ _ _ h1)

theorem mem_usageReplace (d : String) (b : UBucket) (now : String)
    (col col' : List UsageRecord) (h : usageReplace d b now col = some col')
    (r : UsageRecord) (hr : r ∈ col') :
    r ∈ col ∨ ∃ id, r = mkUsageRecord id d b now := by
  induction col generalizing col' with
  | nil => simp [usageReplace] at h
  | cons r0 rs ih =>
    by_cases hd : r0.date = d
    · simp only [usageReplace, if_pos hd, Option.some.injEq] at h
      subst h
      rcases List.mem_cons.mp hr with h1 | h1
      · right; exact ⟨r0.id, h1⟩
      · left; exact List.mem_cons_of_mem r0 h1
    · simp only [usageReplace, if_neg hd] at h
      cases hrec : usageReplace d b now rs with
      | none => rw [hrec] at h; simp at h
      | some col'' =>
        rw [hrec] at h
        simp only [Option.map_some', Option.some.injEq] at h
        subst h
        rcases List.mem_cons.mp hr with h1 | h1
        · left; rw [h1]; exact List.mem_cons_self r0 rs
        · rcases ih col'' hrec h1 with h2 | h2
          · left; exact List.mem_cons_of_mem r0 h2
          · right; exact h2

theorem mem_usageUpsert (acc : UsageUpAcc) (d : String) (b : UBucket)
    (now : String) (r : UsageRecord) (hr : r ∈ (usageUpsert acc d b now).col) :
    r ∈ acc.col ∨ ∃ id, r = mkUsageRecord id d b now := by
  unfold usageUpsert at hr
  cases heq : usageReplace d b now acc.col with
  | some col' =>
    rw [heq] at hr
    exact mem_usageReplace d b now acc.col col' heq r hr
  | none =>
    rw [heq] at hr
    rcases List.mem_append.mp hr with h1 | h1
    · left; exact h1
    · right
      simp only [List.mem_singleton] at h1
      exact ⟨acc.nextId, h1⟩

theorem mem_usageSave (byDate : List (String × UBucket)) :
    ∀ (acc : UsageUpAcc) (now : String) (r : UsageRecord),
      r ∈ (usageSave byDate acc now).col →
      r ∈ acc.col ∨ ∃ p ∈ byDate, ∃ id, r = mkUsageRecord id p.1 p.2 now := by
  induction byDate with
  | nil =>
    intro acc now r hr
    left
    exact hr
  | cons p rest ih =>
    intro acc now r hr
    simp only [usageSave, List.foldl_cons] at hr
    rcases ih (usageUpsert acc p.1 p.2 now) now r hr with h1 | ⟨q, hq, id, hid⟩
    · rcases mem_usageUpsert acc p.1 p.2 now r h1 with h2 | ⟨id, hid⟩
      · left; exact h2
      · right; exact ⟨p, List.mem_cons_self p rest, id, hid⟩
    · right; exact ⟨q, List.mem_cons_of_mem p hq, id, hid⟩

/-- **C10**: in both the usage ingest and the detailed-wastage ingest, the
`by_location` dimension key is the patient-location string truncated at its
first `-`; all rows of an upload sharing that truncated key (per date, for
usage) are merged into one `by_location` bucket whose `used`/`waste`/
`count` are exactly the sums over all those rows, the location keys are
duplicate-free (a single bucket per key), and every stored usage record's
`by_location` map is that of its date's aggregate bucket (the
detailed-wastage document's `by_location` is the aggregate map itself). -/
theorem by_location_truncated_key_aggregation
    (header : Row) (rows : List Row) (st : UsageState) (nextId : Nat)
    (nowU : String) (uacc : UsageAcc)
    (hu : usageLoop (usageCols header) rows ⟨[], [], 0, 0⟩ = .ok uacc)
    (rawD : List JRow) (old : DetailedWastageDoc) (nowD : String) (dacc : DWAcc)
    (hd : detailedLoop rawD ⟨[], [], [], 0, 0⟩ = .ok dacc) :
    (∀ d k, locStats uacc.byDate d k = sumRowLoc (usageCols header) rows d k) ∧
    ((uacc.byDate.map (·.1)).Nodup ∧
      ∀ p ∈ uacc.byDate, (p.2.by_location.map (·.1)).Nodup) ∧
    (∀ rec ∈ (usageIngest (header :: rows) st nextId nowU).state.mem,
      rec ∈ st.mem ∨ ∃ b, (rec.date, b) ∈ uacc.byDate ∧
        rec.by_location = b.by_location) ∧
    ((detailedWastageIngest rawD old nowD).1.by_location = dacc.byLocation) ∧
    (∀ k, dlocStats dacc.byLocation k = sumRowDLoc rawD k) ∧
    (dacc.byLocation.map (·.1)).Nodup := by
  refine ⟨?_, ?_, ?_, ?_, ?_, ?_⟩
  · intro d k
    rw [usageLoop_locStats (usageCols header) rows ⟨[], [], 0, 0⟩ uacc hu d k]
    rw [show locStats (⟨[], [], 0, 0⟩ : UsageAcc).byDate d k = (0, 0, 0) from rfl]
    rw [addT_zero_left]
  · exact usageLoop_nodup (usageCols header) rows ⟨[], [], 0, 0⟩ uacc hu
      (by simp) (by intro p hp; cases hp)
  · intro rec hrec
    simp only [usageIngest, hu] at hrec
    rw [mem_jsSort] at hrec
    rcases mem_usageSave uacc.byDate ⟨st.mem, nextId, 0, 0⟩ nowU rec hrec with
      h1 | ⟨p, hp, id, hid⟩
    · left; exact h1
    · right
      refine ⟨p.2, ?_, ?_⟩
      · rw [hid]
        simpa using hp
      · rw [hid]
        rfl
  · simp only [detailedWastageIngest, hd]
  · intro k
    rw [detailedLoop_locStats rawD ⟨[], [], [], 0, 0⟩ dacc hd k]
    rw [show dlocStats (⟨[], [], [], 0, 0⟩ : DWAcc).byLocation k = (0, 0, 0) from rfl]
    rw [addT_zero_left]
  · exact detailedLoop_nodup rawD ⟨[], [], [], 0, 0⟩ dacc hd (by simp)

/-- **C10** witness: usage rows at `ICU-3` and `ICU-7` merge into the
single `ICU` bucket `(22, 8, 2)`; detailed-wastage rows at `ER-1` and
`ER-2` merge into the single `ER` bucket `(9, 3, 2)`. -/
theorem by_location_truncated_key_aggregation_witness :
    locStats ((⟨[("2023-03-15",
        ⟨30, 22, 8, 2, [(Cell.str "DrugA", ⟨22, 8, 2, Cell.str ""⟩)],
         [("ICU", ⟨22, 8, 2⟩)]⟩)],
      [(Cell.str "DrugA", ⟨22, 8, 2, Cell.str ""⟩)], 2, 8⟩ : UsageAcc)).byDate
      "2023-03-15" "ICU" =
      sumRowLoc (usageCols
        [Cell.str "Patient Location", Cell.str "Dose Preparation Time",
         Cell.str "Product Name", Cell.str "Product Total Volume",
         Cell.str "Product Unused Volume"])
        [[Cell.str "ICU-3", Cell.num 45000, Cell.str "DrugA", Cell.num 10,
          Cell.num 3],
         [Cell.str "ICU-7", Cell.num 45000, Cell.str "DrugA", Cell.num 20,
          Cell.num 5]] "2023-03-15" "ICU" ∧
    dlocStats ((⟨[("2023-03-15", ⟨12, 9, 3, 2, 0, 0⟩)],
      [("P", ⟨Cell.str "", 12, 9, 3, 2, false, false⟩)],
      [("ER", ⟨12, 9, 3, 2⟩)], 2, 3⟩ : DWAcc)).byLocation "ER" =
      sumRowDLoc
        [[("Dose Preparation Time", Cell.num 45000),
          ("Patient Location", Cell.str "ER-1"),
          ("Product Name", Cell.str "P"),
          ("Product Total Volume", Cell.num 8),
          ("Product Unused Volume", Cell.num 2)],
         [("Dose Preparation Time", Cell.num 45000),
          ("Patient Location", Cell.str "ER-2"),
          ("Product Name", Cell.str "P"),
          ("Product Total Volume", Cell.num 4),
          ("Product Unused Volume", Cell.num 1)]] "ER" := by
  have h := by_location_truncated_key_aggregation
    [Cell.str "Patient Location", Cell.str "Dose Preparation Time",
     Cell.str "Product Name", Cell.str "Product Total Volume",
     Cell.str "Product Unused Volume"]
    [[Cell.str "ICU-3", Cell.num 45000, Cell.str "DrugA", Cell.num 10,
      Cell.num 3],
     [Cell.str "ICU-7", Cell.num 45000, Cell.str "DrugA", Cell.num 20,
      Cell.num 5]]
    ⟨[], []⟩ 0 "T"
    ⟨[("2023-03-15",
        ⟨30, 22, 8, 2, [(Cell.str "DrugA", ⟨22, 8, 2, Cell.str ""⟩)],
         [("ICU", ⟨22, 8, 2⟩)]⟩)],
      [(Cell.str "DrugA", ⟨22, 8, 2, Cell.str ""⟩)], 2, 8⟩
    (by rfl)
    [[("Dose Preparation Time", Cell.num 45000),
      ("Patient Location", Cell.str "ER-1"),
      ("Product Name", Cell.str "P"),
      ("Product Total Volume", Cell.num 8),
      ("Product Unused Volume", Cell.num 2)],
     [("Dose Preparation Time", Cell.num 45000),
      ("Patient Location", Cell.str "ER-2"),
      ("Product Name", Cell.str "P"),
      ("Product Total Volume", Cell.num 4),
      ("Product Unused Volume", Cell.num 1)]]
    ⟨[], [], [], 0, 0, 0, none, none, ""⟩ "T"
    ⟨[("2023-03-15", ⟨12, 9, 3, 2, 0, 0⟩)],
      [("P", ⟨Cell.str "", 12, 9, 3, 2, false, false⟩)],
      [("ER", ⟨12, 9, 3, 2⟩)], 2, 3⟩
    (by rfl)
  exact ⟨h.1 "2023-03-15" "ICU", h.2.2.2.2.1 "ER"⟩

/-! ## Re-ingest idempotence -/

theorem prodReplace_none_iff (d : String) (t : Int) (h : List (HKey × Int))
    (n : String) (col : List ProdRecord) :
    prodReplace d t h n col = none ↔ ∀ r ∈ col, r.date ≠ d := by
  induction col with
  | nil => simp [prodReplace]
  | cons r rs ih =>
    by_cases hd : r.date = d
    · simp [prodReplace, hd]
    · simp [prodReplace, hd, Option.map_eq_none', ih]

theorem getByDate_none_iff (col : List ProdRecord) (d : String) :
    getByDate col d = none ↔ ∀ r ∈ col, r.date ≠ d := by
  unfold getByDate
  rw [List.find?_eq_none]
  constructor
  · intro h r hr
    have := h r hr
    simpa using this
  · intro h r hr
    simpa using h r hr

theorem getByDate_replace_some (d : String) (t : Int) (h : List (HKey × Int))
    (n : String) (col col' : List ProdRecord)
    (heq : prodReplace d t h n col = some col') :
    ∃ old, getByDate col d = some old ∧
      getByDate col' d = some { id := old.id, date := d, total_doses := t,
                                hourly := h, uploaded_at := n } := by
  induction col generalizing col' with
  | nil => simp [prodReplace] at heq
  | cons r rs ih =>
    by_cases hd : r.date = d
    · simp only [prodReplace, if_pos hd, Option.some.injEq] at heq
      subst heq
      refine ⟨r, ?_, ?_⟩
      · unfold getByDate
        rw [List.find?_cons_of_pos _ (by simp [hd])]
      · unfold getByDate
        rw [List.find?_cons_of_pos _ (by simp)]
    · simp only [prodReplace, if_neg hd] at heq
      cases hrec : prodReplace d t h n rs with
      | none => rw [hrec] at heq; simp at heq
      | some col'' =>
        rw [hrec] at heq
        simp only [Option.map_some', Option.some.injEq] at heq
        subst heq
        obtain ⟨old, h1, h2⟩ := ih col'' hrec
        refine ⟨old, ?_, ?_⟩
        · unfold getByDate at h1 ⊢
          rw [List.find?_cons_of_neg _ (by simp [hd])]
          exact h1
        · unfold getByDate at h2 ⊢
          rw [List.find?_cons_of_neg _ (by simp [hd])]
          exact h2

theorem getByDate_replace_ne (d : String) (t : Int) (h : List (HKey × Int))
    (n : String) (col col' : List ProdRecord)
    (heq : prodReplace d t h n col = some col') (d' : String) (hne : d' ≠ d) :
    getByDate col' d' = getByDate col d' := by
  induction col generalizing col' with
  | nil => simp [prodReplace] at heq
  | cons r rs ih =>
    by_cases hd : r.date = d
    · simp only [prodReplace, if_pos hd, Option.some.injEq] at heq
      subst heq
      unfold getByDate
      rw [List.find?_cons_of_neg _ (by simp; exact fun he => hne he.symm),
        List.find?_cons_of_neg _ (by simp [hd]; exact fun he => hne he.symm)]
    · simp only [prodReplace, if_neg hd] at heq
      cases hrec : prodReplace d t h n rs with
      | none => rw [hrec] at heq; simp at heq
      | some col'' =>
        rw [hrec] at heq
        simp only [Option.map_some', Option.some.injEq] at heq
        subst heq
        unfold getByDate at ih ⊢
        by_cases hr : r.date = d'
        · rw [List.find?_cons_of_pos _ (by simp [hr]),
            List.find?_cons_of_pos _ (by simp [hr])]
        · rw [List.find?_cons_of_neg _ (by simp [hr]),
            List.find?_cons_of_neg _ (by simp [hr])]
          exact ih col'' hrec

theorem getByDate_prodUpsert_self (acc : ProdAcc) (d : String) (t : Int)
    (h : List (HKey × Int)) (n : String) :
    ∃ rec, getByDate (prodUpsert acc d t h n).col d = some rec ∧
      rec.date = d ∧ rec.total_doses = t ∧ rec.hourly = h ∧
      rec.uploaded_at = n ∧
      ∀ old, getByDate acc.col d = some old → rec.id = old.id := by
  unfold prodUpsert
  cases heq : prodReplace d t h n acc.col with
  | some col' =>
    obtain ⟨old, h1, h2⟩ := getByDate_replace_some d t h n acc.col col' heq
    exact ⟨{ id := old.id, date := d, total_doses := t, hourly := h,
             uploaded_at := n }, h2, rfl, rfl, rfl, rfl,
      fun old0 h0 => by rw [h1] at h0; cases h0; rfl⟩
  | none =>
    have hnone : getByDate acc.col d = none := by
      rw [getByDate_none_iff]
      exact (prodReplace_none_iff d t h n acc.col).mp heq
    refine ⟨{ id := acc.nextId, date := d, total_doses := t, hourly := h,
              uploaded_at := n }, ?_, rfl, rfl, rfl, rfl,
      fun old0 h0 => by rw [hnone] at h0; cases h0⟩
    unfold getByDate at hnone ⊢
    rw [List.find?_append, hnone]
    simp

theorem getByDate_prodUpsert_ne (acc : ProdAcc) (d : String) (t : Int)
    (h : List (HKey × Int)) (n : String) (d' : String) (hne : d' ≠ d) :
    getByDate (prodUpsert acc d t h n).col d' = getByDate acc.col d' := by
  unfold prodUpsert
  cases heq : prodReplace d t h n acc.col with
  | some col' => exact getByDate_replace_ne d t h n acc.col col' heq d' hne
  | none =>
    unfold getByDate
    rw [List.find?_append]
    have : List.find? (fun r => r.date == d')
        [{ id := acc.nextId, date := d, total_doses := t, hourly := h,
           uploaded_at := n : ProdRecord }] = none := by
      simp
      exact fun he => hne he.symm
    rw [this]
    cases List.find? (fun r => r.date == d') acc.col <;> rfl

/-- **C8**: the date normalizer maps a numeric serial to the ISO date
string of `floor(serial) - 25569` days after the Unix epoch (no
time-of-day survives the floor), and the production file with header
`["EntryDate","8:00","9:00"]` and row `[45000, 5, 7]` yields exactly the
one record `{date: "2023-03-15", total_doses: 12, hourly: {8:5, 9:7}}`. -/
theorem date_normalizer_and_scenario :
    (∀ serial : ℚ, excelDateToISO serial = isoOfDays (⌊serial⌋ - 25569)) ∧
    ∀ now : String,
      (prodIngest [[Cell.str "EntryDate", Cell.str "8:00", Cell.str "9:00"],
                   [Cell.num 45000, Cell.num 5, Cell.num 7]]
        ⟨[], []⟩ 0 now).state.mem =
      [{ id := 0, date := "2023-03-15", total_doses := 12,
         hourly := [(some 8, 5), (some 9, 7)], uploaded_at := now }] := by
  constructor
  · intro serial
    unfold excelDateToISO
    rw [show (25569 : ℚ) = ((25569 : ℤ) : ℚ) by norm_cast, Int.floor_sub_int]
  · intro now
    rfl

theorem prodReplace_dates (d : String) (t : Int) (h : List (HKey × Int))
    (n : String) (col col' : List ProdRecord)
    (heq : prodReplace d t h n col = some col') :
    col'.map (·.date) = col.map (·.date) := by
  induction col generalizing col' with
  | nil => simp [prodReplace] at heq
  | cons r rs ih =>
    by_cases hd : r.date = d
    · simp only [prodReplace, if_pos hd, Option.some.injEq] at heq
      subst heq
      simp [hd]
    · simp only [prodReplace, if_neg hd] at heq
      cases hrec : prodReplace d t h n rs with
      | none => rw [hrec] at heq; simp at heq
      | some col'' =>
        rw [hrec] at heq
        simp only [Option.map_some', Option.some.injEq] at heq
        subst heq
        simp [ih col'' hrec]

theorem prodReplace_isSome_of_mem (d : String) (t : Int)
    (h : List (HKey × Int)) (n : String) (col : List ProdRecord)
    (hmem : d ∈ col.map (·.date)) :
    (prodReplace d t h n col).isSome := by
  cases heq : prodReplace d t h n col with
  | some _ => rfl
  | none =>
    rw [prodReplace_none_iff] at heq
    obtain ⟨r, hr, hdr⟩ := List.mem_map.mp hmem
    exact absurd hdr (heq r hr)

theorem mem_dates_of_getByDate (col : List ProdRecord) (d : String)
    (rec : ProdRecord) (h : getByDate col d = some rec) :
    d ∈ col.map (·.date) := by
  unfold getByDate at h
  have h1 := List.mem_of_find?_eq_some h
  have h2 := List.find?_some h
  simp only [beq_iff_eq] at h2
  exact List.mem_map.mpr ⟨rec, h1, h2⟩

theorem lastRowFor_isSome_of_contrib (d : String) (rows : List Row)
    (row : Row) (hmem : row ∈ rows) (hc : rowContributes row d = true) :
    (lastRowFor d rows).isSome := by
  induction rows with
  | nil => cases hmem
  | cons r rest ih =>
    unfold lastRowFor
    cases hrec : lastRowFor d rest with
    | some _ => rfl
    | none =>
      rcases List.mem_cons.mp hmem with h | h
      · subst h
        rw [if_pos hc]
        rfl
      · have := ih h
        rw [hrec] at this
        cases this

theorem sameCoreb_refl (o : Option ProdRecord) : sameCoreb o o = true := by
  cases o <;> simp [sameCoreb]

theorem prodLoop_err_indep (hm : List (Nat × HKey)) (rows : List Row)
    (now now' : String) (acc acc' : ProdAcc) :
    (prodLoop hm now rows acc).2 = (prodLoop hm now' rows acc').2 := by
  induction rows generalizing acc acc' with
  | nil => rfl
  | cons row rest ih =>
    unfold prodLoop
    by_cases ht : (getCell row 0).truthy
    · rw [if_pos ht, if_pos ht]
      cases cellToNumber (getCell row 0) with
      | none => rfl
      | some serial => exact ih _ _
    · rw [if_neg ht, if_neg ht]
      exact ih _ _

theorem prodUpsert_count (acc : ProdAcc) (d : String) (t : Int)
    (h : List (HKey × Int)) (n : String) :
    (prodUpsert acc d t h n).added + (prodUpsert acc d t h n).updated =
      acc.added + acc.updated + 1 := by
  unfold prodUpsert
  cases prodReplace d t h n acc.col <;> dsimp only <;> omega

theorem prodLoop_counts (hm : List (Nat × HKey)) (now : String)
    (rows : List Row) (acc : ProdAcc)
    (hsucc : (prodLoop hm now rows acc).2 = none) :
    (prodLoop hm now rows acc).1.added + (prodLoop hm now rows acc).1.updated =
      acc.added + acc.updated + activeCount rows := by
  induction rows generalizing acc with
  | nil => simp [prodLoop, activeCount]
  | cons row rest ih =>
    unfold prodLoop at hsucc ⊢
    by_cases ht : (getCell row 0).truthy
    · rw [if_pos ht] at hsucc ⊢
      cases hc : cellToNumber (getCell row 0) with
      | none =>
        rw [hc] at hsucc
        simp at hsucc
      | some serial =>
        rw [hc] at hsucc
        dsimp only at hsucc ⊢
        rw [ih _ hsucc, prodUpsert_count]
        have hact : activeCount (row :: rest) = activeCount rest + 1 := by
          simp [activeCount, List.filter_cons, ht]
        rw [hact]
        omega
    · rw [if_neg ht] at hsucc ⊢
      rw [ih _ hsucc]
      simp [activeCount, List.filter_cons, ht]

theorem prodLoop_all_replace (hm : List (Nat × HKey)) (now : String)
    (rows : List Row) (acc : ProdAcc)
    (hsucc : (prodLoop hm now rows acc).2 = none)
    (hmem : ∀ row ∈ rows, (getCell row 0).truthy = true →
      ∀ serial, cellToNumber (getCell row 0) = some serial →
        excelDateToISO serial ∈ acc.col.map (·.date)) :
    (prodLoop hm now rows acc).1.added = acc.added := by
  induction rows generalizing acc with
  | nil => rfl
  | cons row rest ih =>
    unfold prodLoop at hsucc ⊢
    by_cases ht : (getCell row 0).truthy
    · rw [if_pos ht] at hsucc ⊢
      cases hc : cellToNumber (getCell row 0) with
      | none => rfl
      | some serial =>
        rw [hc] at hsucc
        dsimp only at hsucc ⊢
        have hd : excelDateToISO serial ∈ acc.col.map (·.date) :=
          hmem row (List.mem_cons_self _ _) ht serial hc
        obtain ⟨col', hcol'⟩ := Option.isSome_iff_exists.mp
          (prodReplace_isSome_of_mem (excelDateToISO serial)
            (hourTotals hm row).2 (hourTotals hm row).1 now acc.col hd)
        have hups : prodUpsert acc (excelDateToISO serial)
            (hourTotals hm row).2 (hourTotals hm row).1 now =
            { acc with col := col', updated := acc.updated + 1 } := by
          unfold prodUpsert
          rw [hcol']
        rw [hups] at hsucc ⊢
        have hdates : col'.map (·.date) = acc.col.map (·.date) :=
          prodReplace_dates _ _ _ _ _ _ hcol'
        rw [ih _ hsucc ?_]
        intro row' hm' ht' serial' hc'
        have := hmem row' (List.mem_cons_of_mem _ hm') ht' serial' hc'
        dsimp only
        rw [hdates]
        exact this
    · rw [if_neg ht] at hsucc ⊢
      exact ih _ hsucc (fun row' hm' => hmem row' (List.mem_cons_of_mem _ hm'))

theorem prodUpsert_nodup (acc : ProdAcc) (d : String) (t : Int)
    (h : List (HKey × Int)) (n : String)
    (hnd : (acc.col.map (·.date)).Nodup) :
    ((prodUpsert acc d t h n).col.map (·.date)).Nodup := by
  unfold prodUpsert
  cases heq : prodReplace d t h n acc.col with
  | some col' =>
    dsimp only
    rw [prodReplace_dates d t h n acc.col col' heq]
    exact hnd
  | none =>
    dsimp only
    rw [List.map_append]
    have hfresh := (prodReplace_none_iff d t h n acc.col).mp heq
    rw [List.nodup_append]
    refine ⟨hnd, List.nodup_singleton _, ?_⟩
    intro x hx hx'
    simp only [List.map_cons, List.map_nil, List.mem_singleton] at hx'
    subst hx'
    obtain ⟨r, hr, hrd⟩ := List.mem_map.mp hx
    exact hfresh r hr hrd

theorem prodLoop_nodup (hm : List (Nat × HKey)) (now : String)
    (rows : List Row) (acc : ProdAcc)
    (hnd : (acc.col.map (·.date)).Nodup) :
    ((prodLoop hm now rows acc).1.col.map (·.date)).Nodup := by
  induction rows generalizing acc with
  | nil => exact hnd
  | cons row rest ih =>
    unfold prodLoop
    by_cases ht : (getCell row 0).truthy
    · rw [if_pos ht]
      cases cellToNumber (getCell row 0) with
      | none => exact hnd
      | some serial => exact ih _ (prodUpsert_nodup _ _ _ _ _ hnd)
    · rw [if_neg ht]
      exact ih _ hnd

theorem jsSort_dates_nodup (col : List ProdRecord)
    (hnd : (col.map (·.date)).Nodup) :
    ((jsSort prodSortLe col).map (·.date)).Nodup :=
  (((jsSort_perm prodSortLe col).map (·.date)).nodup_iff).mpr hnd

theorem getByDate_jsSort (col : List ProdRecord)
    (hnd : (col.map (·.date)).Nodup) (d : String) :
    getByDate (jsSort prodSortLe col) d = getByDate col d := by
  by_cases hex : ∃ r ∈ col, r.date = d
  · obtain ⟨r, hr, hrd⟩ := hex
    have h1 : (getByDate col d).isSome := by
      unfold getByDate
      rw [List.find?_isSome]
      exact ⟨r, hr, by simp [hrd]⟩
    have h2 : (getByDate (jsSort prodSortLe col) d).isSome := by
      unfold getByDate
      rw [List.find?_isSome]
      exact ⟨r, (mem_jsSort _ _ _).mpr hr, by simp [hrd]⟩
    obtain ⟨r1, hr1⟩ := Option.isSome_iff_exists.mp h2
    obtain ⟨r0, hr0⟩ := Option.isSome_iff_exists.mp h1
    have hm1 : r1 ∈ col := by
      have := List.mem_of_find?_eq_some hr1
      exact (mem_jsSort _ _ _).mp this
    have hm0 : r0 ∈ col := List.mem_of_find?_eq_some hr0
    have hd1 : r1.date = d := by simpa using List.find?_some hr1
    have hd0 : r0.date = d := by simpa using List.find?_some hr0
    rw [hr1, hr0]
    have : r1 = r0 :=
      List.inj_on_of_nodup_map hnd hm1 hm0 (by rw [hd1, hd0])
    rw [this]
  · push_neg at hex
    have h1 : getByDate col d = none := (getByDate_none_iff _ _).mpr hex
    have h2 : getByDate (jsSort prodSortLe col) d = none := by
      rw [getByDate_none_iff]
      intro r' hr'
      exact hex r' ((mem_jsSort _ _ _).mp hr')
    rw [h1, h2]

theorem rowContributes_of_num (row : Row) (d : String) (serial : Rat)
    (ht : (getCell row 0).truthy = true)
    (hc : cellToNumber (getCell row 0) = some serial) :
    rowContributes row d = (excelDateToISO serial == d) := by
  unfold rowContributes
  rw [ht, hc]
  simp

theorem prodLoop_getByDate (hm : List (Nat × HKey)) (now : String)
    (rows : List Row) (acc : ProdAcc)
    (hsucc : (prodLoop hm now rows acc).2 = none) (d : String) :
    (lastRowFor d rows = none →
      getByDate (prodLoop hm now rows acc).1.col d = getByDate acc.col d) ∧
    (∀ row, lastRowFor d rows = some row →
      ∃ rec, getByDate (prodLoop hm now rows acc).1.col d = some rec ∧
        rec.date = d ∧ rec.total_doses = (hourTotals hm row).2 ∧
        rec.hourly = (hourTotals hm row).1 ∧ rec.uploaded_at = now ∧
        ∀ old, getByDate acc.col d = some old → rec.id = old.id) := by
  induction rows generalizing acc with
  | nil =>
    refine ⟨fun _ => rfl, fun row h => ?_⟩
    simp [lastRowFor] at h
  | cons row rest ih =>
    unfold prodLoop at hsucc ⊢
    by_cases ht : (getCell row 0).truthy
    · rw [if_pos ht] at hsucc ⊢
      cases hc : cellToNumber (getCell row 0) with
      | none =>
        rw [hc] at hsucc
        simp at hsucc
      | some serial =>
        rw [hc] at hsucc
        dsimp only at hsucc ⊢
        have hcontrib := rowContributes_of_num row d serial ht hc
        have ihrest := ih (prodUpsert acc (excelDateToISO serial)
          (hourTotals hm row).2 (hourTotals hm row).1 now) hsucc
        constructor
        · intro hnone
          have hrest : lastRowFor d rest = none := by
            unfold lastRowFor at hnone
            cases hr : lastRowFor d rest with
            | some r =>
              rw [hr] at hnone
              cases hnone
            | none => rfl
          have hnc : rowContributes row d = false := by
            unfold lastRowFor at hnone
            rw [hrest] at hnone
            by_cases hcb : rowContributes row d = true
            · rw [if_pos hcb] at hnone
              cases hnone
            · exact Bool.eq_false_iff.mpr hcb
          have hne : d ≠ excelDateToISO serial := by
            rw [hcontrib] at hnc
            intro he
            rw [he] at hnc
            simp at hnc
          rw [ihrest.1 hrest]
          exact getByDate_prodUpsert_ne acc (excelDateToISO serial)
            (hourTotals hm row).2 (hourTotals hm row).1 now d hne
        · intro row0 hsome
          unfold lastRowFor at hsome
          cases hr : lastRowFor d rest with
          | some r =>
            rw [hr] at hsome
            cases hsome
            obtain ⟨rec, hrec, hrd, hrt, hrh, hru, hrid⟩ := ihrest.2 row0 hr
            refine ⟨rec, hrec, hrd, hrt, hrh, hru, ?_⟩
            intro old hold
            by_cases hdd : d = excelDateToISO serial
            · subst hdd
              obtain ⟨rec0, hrec0, _, _, _, _, hrid0⟩ :=
                getByDate_prodUpsert_self acc (excelDateToISO serial)
                  (hourTotals hm row).2 (hourTotals hm row).1 now
              rw [hrid rec0 hrec0]
              exact hrid0 old hold
            · refine hrid old ?_
              rw [getByDate_prodUpsert_ne acc (excelDateToISO serial)
                (hourTotals hm row).2 (hourTotals hm row).1 now d hdd]
              exact hold
          | none =>
            rw [hr, hcontrib] at hsome
            by_cases hdd : d = excelDateToISO serial
            · rw [if_pos (by simp [hdd])] at hsome
              cases hsome
              subst hdd
              obtain ⟨rec0, hrec0, hd0, ht0, hh0, hu0, hrid0⟩ :=
                getByDate_prodUpsert_self acc (excelDateToISO serial)
                  (hourTotals hm row).2 (hourTotals hm row).1 now
              refine ⟨rec0, ?_, hd0, ht0, hh0, hu0, hrid0⟩
              rw [ihrest.1 hr]
              exact hrec0
            · rw [if_neg (by simp; exact fun he => hdd he.symm)] at hsome
              cases hsome
    · rw [if_neg ht] at hsucc ⊢
      have htf : (getCell row 0).truthy = false := Bool.eq_false_iff.mpr ht
      have hnc : rowContributes row d = false := by
        unfold rowContributes
        rw [htf]
        simp
      constructor
      · intro hnone
        unfold lastRowFor at hnone
        cases hr : lastRowFor d rest with
        | some r =>
          rw [hr] at hnone
          cases hnone
        | none => exact (ih acc hsucc).1 hr
      · intro row0 hsome
        unfold lastRowFor at hsome
        cases hr : lastRowFor d rest with
        | some r =>
          rw [hr] at hsome
          cases hsome
          exact (ih acc hsucc).2 _ hr
        | none =>
          rw [hr, hnc] at hsome
          simp at hsome

theorem prodIngest_ok (header : Row) (rows : List Row) (st : ProdState)
    (nextId : Nat) (now : String)
    (hh : getCell header 0 = Cell.str "EntryDate")
    (hE : (prodLoop (buildHourMap header) now rows
      ⟨st.mem, nextId, 0, 0⟩).2 = none) :
    prodIngest (header :: rows) st nextId now =
      ⟨⟨jsSort prodSortLe (prodLoop (buildHourMap header) now rows
            ⟨st.mem, nextId, 0, 0⟩).1.col,
        jsSort prodSortLe (prodLoop (buildHourMap header) now rows
            ⟨st.mem, nextId, 0, 0⟩).1.col⟩,
       (prodLoop (buildHourMap header) now rows ⟨st.mem, nextId, 0, 0⟩).1.nextId,
       .ok (prodLoop (buildHourMap header) now rows
           ⟨st.mem, nextId, 0, 0⟩).1.added
         (prodLoop (buildHourMap header) now rows
           ⟨st.mem, nextId, 0, 0⟩).1.updated⟩ := by
  unfold prodIngest
  dsimp only
  rw [if_neg (not_not_intro hh)]
  rw [hE]

/-- **C4**: uploading the same production file twice yields `added = 0` and
`updated = N` on the second run, where `N` is the number of ingested
(non-skipped) data rows and equals the first run's `added + updated`; and
for every date key the record stored after the second run equals its
first-run counterpart except for the `uploaded_at` field — in particular
the `id` is unchanged. Stated under the collection invariant, maintained by
every successful ingest, that the stored dates are pairwise distinct. -/
theorem production_reingest_idempotent
    (raw : List Row) (st0 : ProdState) (n0 : Nat) (now1 now2 : String)
    (hnd : (st0.mem.map (·.date)).Nodup) (a1 u1 : Nat)
    (h1 : (prodIngest raw st0 n0 now1).resp = .ok a1 u1) :
    (prodIngest raw (prodIngest raw st0 n0 now1).state
        (prodIngest raw st0 n0 now1).nextId now2).resp = .ok 0 (a1 + u1) ∧
    a1 + u1 = activeCount raw.tail ∧
    ∀ d, sameCoreb
        (getByDate (prodIngest raw (prodIngest raw st0 n0 now1).state
            (prodIngest raw st0 n0 now1).nextId now2).state.mem d)
        (getByDate (prodIngest raw st0 n0 now1).state.mem d) = true := by
  cases raw with
  | nil => simp [prodIngest] at h1
  | cons header rows =>
    by_cases hh : getCell header 0 = Cell.str "EntryDate"
    · cases hE1 : (prodLoop (buildHourMap header) now1 rows
          ⟨st0.mem, n0, 0, 0⟩).2 with
      | some e =>
        unfold prodIngest at h1
        dsimp only at h1
        rw [if_neg (not_not_intro hh), hE1] at h1
        cases h1
      | none =>
        rw [prodIngest_ok header rows st0 n0 now1 hh hE1] at h1 ⊢
        dsimp only at h1 ⊢
        cases h1
        have hE2 : (prodLoop (buildHourMap header) now2 rows
            ⟨jsSort prodSortLe (prodLoop (buildHourMap header) now1 rows
              ⟨st0.mem, n0, 0, 0⟩).1.col,
             (prodLoop (buildHourMap header) now1 rows ⟨st0.mem, n0, 0, 0⟩).1.nextId,
             0, 0⟩).2 = none := by
          rw [prodLoop_err_indep (buildHourMap header) rows now2 now1 _ ⟨st0.mem, n0, 0, 0⟩]
          exact hE1
        rw [prodIngest_ok header rows _ _ now2 hh hE2]
        dsimp only
        have hmemAll : ∀ row ∈ rows, (getCell row 0).truthy = true →
            ∀ serial, cellToNumber (getCell row 0) = some serial →
              excelDateToISO serial ∈ (jsSort prodSortLe (prodLoop (buildHourMap header) now1
                rows ⟨st0.mem, n0, 0, 0⟩).1.col).map (·.date) := by
          intro row hr htr serial hc
          have hcon : rowContributes row (excelDateToISO serial) = true := by
            rw [rowContributes_of_num row _ serial htr hc]
            simp
          obtain ⟨row', hrow'⟩ := Option.isSome_iff_exists.mp
            (lastRowFor_isSome_of_contrib _ rows row hr hcon)
          obtain ⟨rec, hrec, _, _, _, _, _⟩ :=
            (prodLoop_getByDate (buildHourMap header) now1 rows ⟨st0.mem, n0, 0, 0⟩ hE1
              (excelDateToISO serial)).2 row' hrow'
          obtain ⟨r, hrm, hrd2⟩ :=
            List.mem_map.mp (mem_dates_of_getByDate _ _ _ hrec)
          exact List.mem_map.mpr ⟨r, (mem_jsSort _ _ _).mpr hrm, hrd2⟩
        have hadd2 := prodLoop_all_replace (buildHourMap header) now2 rows
          ⟨jsSort prodSortLe (prodLoop (buildHourMap header) now1 rows
            ⟨st0.mem, n0, 0, 0⟩).1.col,
           (prodLoop (buildHourMap header) now1 rows ⟨st0.mem, n0, 0, 0⟩).1.nextId,
           0, 0⟩ hE2 hmemAll
        have h1cnt := prodLoop_counts (buildHourMap header) now1 rows ⟨st0.mem, n0, 0, 0⟩ hE1
        have h2cnt := prodLoop_counts (buildHourMap header) now2 rows
          ⟨jsSort prodSortLe (prodLoop (buildHourMap header) now1 rows
            ⟨st0.mem, n0, 0, 0⟩).1.col,
           (prodLoop (buildHourMap header) now1 rows ⟨st0.mem, n0, 0, 0⟩).1.nextId,
           0, 0⟩ hE2
        dsimp only at hadd2 h1cnt h2cnt
        refine ⟨?_, ?_, ?_⟩
        · rw [hadd2]
          congr 1
          omega
        · dsimp only [List.tail_cons]
          omega
        · intro d
          have nodup1 : ((prodLoop (buildHourMap header) now1 rows
              ⟨st0.mem, n0, 0, 0⟩).1.col.map (·.date)).Nodup :=
            prodLoop_nodup (buildHourMap header) now1 rows ⟨st0.mem, n0, 0, 0⟩ hnd
          have nodupm1 := jsSort_dates_nodup _ nodup1
          have nodup2 : ((prodLoop (buildHourMap header) now2 rows
              ⟨jsSort prodSortLe (prodLoop (buildHourMap header) now1 rows
                ⟨st0.mem, n0, 0, 0⟩).1.col,
               (prodLoop (buildHourMap header) now1 rows ⟨st0.mem, n0, 0, 0⟩).1.nextId,
               0, 0⟩).1.col.map (·.date)).Nodup :=
            prodLoop_nodup (buildHourMap header) now2 rows _ nodupm1
          rw [getByDate_jsSort _ nodup2 d]
          have hpl2 := prodLoop_getByDate (buildHourMap header) now2 rows
            ⟨jsSort prodSortLe (prodLoop (buildHourMap header) now1 rows
              ⟨st0.mem, n0, 0, 0⟩).1.col,
             (prodLoop (buildHourMap header) now1 rows ⟨st0.mem, n0, 0, 0⟩).1.nextId,
             0, 0⟩ hE2 d
          cases hlast : lastRowFor d rows with
          | none =>
            rw [hpl2.1 hlast]
            exact sameCoreb_refl _
          | some row =>
            obtain ⟨rec2, hrec2, hd2, ht2, hh2, _, hrid2⟩ := hpl2.2 row hlast
            obtain ⟨rec1, hrec1, hd1, ht1, hh1, _, _⟩ :=
              (prodLoop_getByDate (buildHourMap header) now1 rows ⟨st0.mem, n0, 0, 0⟩ hE1
                d).2 row hlast
            have hm1d : getByDate (jsSort prodSortLe (prodLoop (buildHourMap header) now1 rows
                ⟨st0.mem, n0, 0, 0⟩).1.col) d = some rec1 := by
              rw [getByDate_jsSort _ nodup1 d]
              exact hrec1
            have hid : rec2.id = rec1.id := hrid2 rec1 hm1d
            rw [hrec2, hm1d]
            simp [sameCoreb, hid, hd2, ht2, hh2, hd1, ht1, hh1]
    · unfold prodIngest at h1
      dsimp only at h1
      rw [if_pos hh] at h1
      cases h1

theorem production_reingest_idempotent_witness :
    ((([] : List ProdRecord).map (·.date)).Nodup ∧
      (prodIngest [[Cell.str "EntryDate", Cell.str "8:00"],
          [Cell.num 45000, Cell.num 5]] ⟨[], []⟩ 1 "T1").resp = .ok 1 0) ∧
    (prodIngest [[Cell.str "EntryDate", Cell.str "8:00"],
        [Cell.num 45000, Cell.num 5]]
      (prodIngest [[Cell.str "EntryDate", Cell.str "8:00"],
          [Cell.num 45000, Cell.num 5]] ⟨[], []⟩ 1 "T1").state
      (prodIngest [[Cell.str "EntryDate", Cell.str "8:00"],
          [Cell.num 45000, Cell.num 5]] ⟨[], []⟩ 1 "T1").nextId
      "T2").resp = .ok 0 (1 + 0) ∧
    1 + 0 = activeCount ([[Cell.str "EntryDate", Cell.str "8:00"],
      [Cell.num 45000, Cell.num 5]] : List Row).tail ∧
    sameCoreb
      (getByDate (prodIngest [[Cell.str "EntryDate", Cell.str "8:00"],
          [Cell.num 45000, Cell.num 5]]
        (prodIngest [[Cell.str "EntryDate", Cell.str "8:00"],
            [Cell.num 45000, Cell.num 5]] ⟨[], []⟩ 1 "T1").state
        (prodIngest [[Cell.str "EntryDate", Cell.str "8:00"],
            [Cell.num 45000, Cell.num 5]] ⟨[], []⟩ 1 "T1").nextId
        "T2").state.mem "2023-03-15")
      (getByDate (prodIngest [[Cell.str "EntryDate", Cell.str "8:00"],
          [Cell.num 45000, Cell.num 5]] ⟨[], []⟩ 1 "T1").state.mem
        "2023-03-15") = true := by
  have h := production_reingest_idempotent
    [[Cell.str "EntryDate", Cell.str "8:00"], [Cell.num 45000, Cell.num 5]]
    ⟨[], []⟩ 1 "T1" "T2" (by simp) 1 0 (by rfl)
  exact ⟨⟨by simp, by rfl⟩, h.1, h.2.1, h.2.2 "2023-03-15"⟩

end DoseEdge
